import Mathlib

/-!
Verification development for the mcp-gateway-registry core.

The Python source is shallowly embedded: strings are `List Char`, Python
floats are modelled as `ℚ` (and as `ℝ` for the embedding-normalization
routine), dictionaries as association lists, and raised exceptions as
`Except` values.  File-system writes are modelled as pure write records.
Timestamps are passed in as opaque strings; logging is elided.
-/

/-- Strings of the embedded program: lists of characters.  Python string
operations are re-implemented structurally so the kernel can evaluate them. -/
abbrev Str := List Char

/-- ASCII lower-casing of one character, modelling Python `str.lower` on the
character sets the registry manipulates. -/
def charLower (c : Char) : Char :=
  if 'A' ≤ c ∧ c ≤ 'Z' then Char.ofNat (c.toNat + 32) else c

/-- Python `s.lower()`. -/
def lowerStr (s : Str) : Str := s.map charLower

/-- Does the first list start with the second? -/
def startsWithStr : Str → Str → Bool
  | _, [] => true
  | [], _ :: _ => false
  | c :: t, n :: m => c == n && startsWithStr t m

/-- Python `needle in hay` for strings: substring occurrence. -/
def hasSub : Str → Str → Bool
  | hay, needle =>
    match hay with
    | [] => needle.isEmpty
    | _ :: t => startsWithStr hay needle || hasSub t needle

/-- Python `s.endswith(suffix)`. -/
def endsWithStr (s suffix : Str) : Bool :=
  startsWithStr s.reverse suffix.reverse

/-- Python `\w` word characters (ASCII fragment of the Unicode class). -/
def isWordChar (c : Char) : Bool := c.isAlphanum || c == '_'

/-- Helper for `tokenize`: collects the current run of word characters. -/
def tokenizeAux : Str → Str → List Str
  | [], acc => if acc.isEmpty then [] else [acc.reverse]
  | c :: t, acc =>
    if isWordChar c then tokenizeAux t (c :: acc)
    else if acc.isEmpty then tokenizeAux t []
    else acc.reverse :: tokenizeAux t []

/-- Python `re.split(r"\W+", s)` with empty tokens dropped (the comprehensions
in the source filter on token truthiness, so empties never survive). -/
def tokenize (s : Str) : List Str := tokenizeAux s []

/-- Python `str.replace(needle, repl)`: replace every non-overlapping
occurrence, scanning left to right. -/
def replaceAllSub (needle repl : Str) : Str → Str
  | [] => []
  | c :: t =>
    if needle ≠ [] ∧ startsWithStr (c :: t) needle then
      repl ++ replaceAllSub needle repl (t.drop (needle.length - 1))
    else
      c :: replaceAllSub needle repl t
termination_by s => s.length
decreasing_by
  · simp only [List.length_cons, List.length_drop]
    omega
  · simp

/-- Python `s.strip(c)` for a single strip character. -/
def stripChar (c : Char) (s : Str) : Str :=
  ((s.dropWhile (· == c)).reverse.dropWhile (· == c)).reverse

/-- Python `s.strip()` (whitespace strip). -/
def stripWS (s : Str) : Str :=
  ((s.dropWhile Char.isWhitespace).reverse.dropWhile Char.isWhitespace).reverse

/-- Python `s.split(",")`; keeps empty fields, `"".split(",") == [""]`. -/
def splitComma : Str → List Str
  | [] => [[]]
  | c :: t =>
    let rest := splitComma t
    if c == ',' then [] :: rest
    else match rest with
      | [] => [[c]]
      | h :: r => (c :: h) :: r

/-- Python `", ".join(parts)`. -/
def joinComma (parts : List Str) : Str :=
  (List.intersperse (", ".toList) parts).flatten

/-- Decimal rendering of a natural number, for interpolated messages. -/
def natToStr (n : Nat) : Str := (Nat.repr n).toList

/-- Python `a or b` on two strings (first operand when non-empty). -/
def pyOrS (a b : Str) : Str := if a.isEmpty then b else a

/-- Python `opt or b` where `opt` is an optional string: `None` and `""` are
both falsy. -/
def pyOrOpt (a : Option Str) (b : Str) : Str :=
  match a with
  | some s => if s.isEmpty then b else s
  | none => b

/-!  ## Security scanner services (`security_scanner.py`, `agent_scanner.py`)  -/

/-- One finding as organized by analyzer; only the severity is consulted by
`_analyze_scan_results` (the other keys are carried verbatim and elided). -/
structure Finding where
  severity : Str
deriving DecidableEq

/-- The `analysis_results` mapping: analyzer name → `{findings: [...]}`,
as an insertion-ordered association list. -/
abbrev AnalysisResults := List (Str × List Finding)

/-- The raw-output payload that both scanners archive: either the normalized
scanner output or the error payload `{error, analysis_results: {}, scan_failed:
true}`.  Unused carrier keys (`tool_results` / `scan_results`) are elided. -/
structure RawOutput where
  errorMsg : Option Str
  analysis_results : AnalysisResults
  scan_failed : Bool
deriving DecidableEq

/-- One entry of the raw tool-results array of `mcp-scanner`: a tool name and
a findings dictionary keyed by analyzer. -/
structure ToolScanEntry where
  tool_name : Str
  findings : List (Str × Finding)
deriving DecidableEq

/-- Append a finding to the analyzer's bucket, creating the bucket at the end
on first use (Python dict insertion order). -/
def appendFinding (acc : AnalysisResults) (analyzer : Str) (f : Finding) :
    AnalysisResults :=
  if acc.any (fun p => p.1 == analyzer) then
    acc.map (fun p => if p.1 == analyzer then (p.1, p.2 ++ [f]) else p)
  else
    acc ++ [(analyzer, [f])]

/-- `_organize_findings_by_analyzer` of `security_scanner.py`. -/
def organizeFindingsByAnalyzer (toolResults : List ToolScanEntry) :
    AnalysisResults :=
  toolResults.foldl
    (fun acc tr =>
      tr.findings.foldl (fun acc2 p => appendFinding acc2 p.1 p.2) acc)
    []

/-- One finding of the `a2a-scanner` output; it carries its analyzer name. -/
structure AgentFinding where
  analyzer : Str
  severity : Str
deriving DecidableEq

/-- The grouping loop of `_run_a2a_scanner`: findings are grouped by their
`analyzer` key. -/
def organizeAgentFindings (findings : List AgentFinding) : AnalysisResults :=
  findings.foldl
    (fun acc f => appendFinding acc f.analyzer ⟨f.severity⟩)
    []

/-- Severity counting of `_analyze_scan_results` (identical in both scanner
services): count findings whose lower-cased severity is the given word. -/
def countSeverity (analysisResults : AnalysisResults) (sev : Str) : Nat :=
  (analysisResults.map
    (fun p => (p.2.filter (fun f => lowerStr f.severity == sev)).length)).sum

/-- `_analyze_scan_results`: returns
`(is_safe, critical, high, medium, low)` with
`is_safe ⇔ critical == 0 ∧ high == 0`. -/
def analyzeScanResults (raw : RawOutput) : Bool × Nat × Nat × Nat × Nat :=
  let critical := countSeverity raw.analysis_results ("critical".toList)
  let high := countSeverity raw.analysis_results ("high".toList)
  let medium := countSeverity raw.analysis_results ("medium".toList)
  let low := countSeverity raw.analysis_results ("low".toList)
  (critical == 0 && high == 0, critical, high, medium, low)

/-- Which of the two per-scan files a write goes to: the dated archive copy or
the overwritten "latest" file. -/
inductive ScanFileTier where
  | archived
  | latest
deriving DecidableEq

/-- One file write performed by `_save_scan_output`. -/
structure ScanFileWrite where
  tier : ScanFileTier
  fileName : Str
  payload : RawOutput
deriving DecidableEq

/-- `_save_scan_output` of `security_scanner.py`: derives the safe file name
from the server URL and writes the payload to the dated archive file and to
the latest file.  Returns the latest path (the `output_file` field) and the
writes.  Directory prefixes and the date folder are elided; `ts` stands for
the `%Y%m%d_%H%M%S` timestamp string. -/
def saveServerScanOutput (serverUrl : Str) (ts : Str) (raw : RawOutput) :
    Str × List ScanFileWrite :=
  let safeUrl :=
    replaceAllSub ("/".toList) ("_".toList)
      (replaceAllSub ("http://".toList) []
        (replaceAllSub ("https://".toList) [] serverUrl))
  let archivedName := "scan_".toList ++ safeUrl ++ "_".toList ++ ts ++ ".json".toList
  let serverName := replaceAllSub ("localhost_".toList) [] safeUrl
  let latestName := serverName ++ ".json".toList
  (latestName,
    [⟨.archived, archivedName, raw⟩, ⟨.latest, latestName, raw⟩])

/-- `_save_scan_output` of `agent_scanner.py`: safe name comes from the agent
path (`/`→`_`, strip `_`). -/
def saveAgentScanOutput (agentPath : Str) (ts : Str) (raw : RawOutput) :
    Str × List ScanFileWrite :=
  let safePath := stripChar '_' (replaceAllSub ("/".toList) ("_".toList) agentPath)
  let archivedName := "scan_".toList ++ safePath ++ "_".toList ++ ts ++ ".json".toList
  let latestName := safePath ++ ".json".toList
  (latestName,
    [⟨.archived, archivedName, raw⟩, ⟨.latest, latestName, raw⟩])

/-- Outcome of running the `mcp-scanner` subprocess and parsing its output
(`_run_mcp_scanner`).  The failure constructors carry what the raised
exception's message is built from. -/
inductive ServerScanOutcome where
  /-- Scanner exited 0 and stdout parsed to a JSON array of tool results. -/
  | success (toolResults : List ToolScanEntry)
  /-- `subprocess.TimeoutExpired`, re-raised as `RuntimeError`. -/
  | timeout (seconds : Nat)
  /-- `subprocess.CalledProcessError`, re-raised as `RuntimeError`. -/
  | procFailed (stderr : Str)
  /-- `json.JSONDecodeError`, re-raised as `RuntimeError`. -/
  | parseFailed
  /-- `ValueError` from `_parse_scanner_json_output`: no JSON array found. -/
  | noJsonArray
  /-- `ValueError` from `_extract_bearer_token_from_headers`. -/
  | invalidHeaders (headers : Str)
deriving DecidableEq

/-- The `str(e)` message attached to each failing `ServerScanOutcome`. -/
def ServerScanOutcome.failMessage : ServerScanOutcome → Option Str
  | .success _ => none
  | .timeout s =>
      some ("Security scan timed out after ".toList ++ natToStr s ++ " seconds".toList)
  | .procFailed stderr =>
      some ("Security scanner failed: ".toList ++ stderr)
  | .parseFailed => some ("Failed to parse security scanner output".toList)
  | .noJsonArray => some ("No JSON array found in scanner output".toList)
  | .invalidHeaders h => some ("Invalid headers JSON: ".toList ++ h)

/-- The scan-result record (`SecurityScanResult` in `schemas/security.py`),
minus the timestamp string. -/
structure SecurityScanResult where
  server_url : Str
  is_safe : Bool
  critical_issues : Nat
  high_severity : Nat
  medium_severity : Nat
  low_severity : Nat
  analyzers_used : List Str
  raw_output : RawOutput
  output_file : Str
  scan_failed : Bool
  error_message : Option Str
deriving DecidableEq

/-- `SecurityScannerService.scan_server`: appends `/mcp` to the URL when
missing, runs the scanner, and either analyzes + archives the output or
(fail-closed) archives an error payload and returns an unsafe, failed result.
The function is total: every outcome yields a result (the except-clauses of
the source). -/
def scanServer (serverUrl analyzers ts : Str) (outcome : ServerScanOutcome) :
    SecurityScanResult × List ScanFileWrite :=
  let url :=
    if endsWithStr serverUrl ("/mcp".toList) then serverUrl
    else serverUrl ++ "/mcp".toList
  match outcome with
  | .success toolResults =>
      let raw : RawOutput :=
        ⟨none, organizeFindingsByAnalyzer toolResults, false⟩
      let a := analyzeScanResults raw
      let save := saveServerScanOutput url ts raw
      (⟨url, a.1, a.2.1, a.2.2.1, a.2.2.2.1, a.2.2.2.2, splitComma analyzers,
        raw, save.1, false, none⟩, save.2)
  | o =>
      let msg := (o.failMessage).getD []
      let raw : RawOutput := ⟨some msg, [], true⟩
      let save := saveServerScanOutput url ts raw
      (⟨url, false, 0, 0, 0, 0,
        if analyzers.isEmpty then [] else splitComma analyzers,
        raw, save.1, true, some msg⟩, save.2)

/-- Outcome of running the `a2a-scanner` subprocess (`_run_a2a_scanner`). -/
inductive AgentScanOutcome where
  /-- Scanner exited 0 and stdout parsed to a JSON object with `findings`. -/
  | success (findings : List AgentFinding)
  /-- `subprocess.TimeoutExpired`, re-raised as `RuntimeError`. -/
  | timeout (seconds : Nat)
  /-- `subprocess.CalledProcessError`, re-raised as `RuntimeError`. -/
  | procFailed (stderr : Str)
  /-- `ValueError`: no JSON object or array found in the output. -/
  | noJsonFound
deriving DecidableEq

/-- The `str(e)` message attached to each failing `AgentScanOutcome`. -/
def AgentScanOutcome.failMessage : AgentScanOutcome → Option Str
  | .success _ => none
  | .timeout s =>
      some ("Agent security scan timed out after ".toList ++ natToStr s
        ++ " seconds".toList)
  | .procFailed stderr =>
      some ("Agent security scanner failed: ".toList ++ stderr)
  | .noJsonFound => some ("No JSON found in A2A scanner output".toList)

/-- The agent scan-result record (`AgentSecurityScanResult`), minus the
timestamp and URL fields that are carried through unchanged. -/
structure AgentSecurityScanResult where
  agent_path : Str
  is_safe : Bool
  critical_issues : Nat
  high_severity : Nat
  medium_severity : Nat
  low_severity : Nat
  analyzers_used : List Str
  raw_output : RawOutput
  output_file : Str
  scan_failed : Bool
  error_message : Option Str
deriving DecidableEq

/-- `AgentScannerService.scan_agent`: total, fail-closed; the blanket
`except Exception` of the source makes every failure produce a result. -/
def scanAgent (agentPath analyzers ts : Str) (outcome : AgentScanOutcome) :
    AgentSecurityScanResult × List ScanFileWrite :=
  match outcome with
  | .success findings =>
      let raw : RawOutput := ⟨none, organizeAgentFindings findings, false⟩
      let a := analyzeScanResults raw
      let save := saveAgentScanOutput agentPath ts raw
      (⟨agentPath, a.1, a.2.1, a.2.2.1, a.2.2.2.1, a.2.2.2.2,
        splitComma analyzers, raw, save.1, false, none⟩, save.2)
  | o =>
      let msg := (o.failMessage).getD []
      let raw : RawOutput := ⟨some msg, [], true⟩
      let save := saveAgentScanOutput agentPath ts raw
      (⟨agentPath, false, 0, 0, 0, 0,
        if analyzers.isEmpty then [] else splitComma analyzers,
        raw, save.1, true, some msg⟩, save.2)

/-!  ## Agent store (`agent_service.py`)  -/

/-- In-memory state of `AgentService`: `registered_agents` (path → agent
card, here reduced to the card's `tags` list, the only field the claims
consult) and `agent_state` with its `enabled`/`disabled` path lists.  Disk
persistence always succeeds in the model. -/
structure AgentStore where
  agents : List (Str × List Str)
  enabled : List Str
  disabled : List Str
deriving DecidableEq

/-- The service's initial state. -/
def emptyStore : AgentStore := ⟨[], [], []⟩

/-- The registered paths (the keys of `registered_agents`). -/
def AgentStore.paths (s : AgentStore) : List Str := s.agents.map Prod.fst

/-- `register_agent`: `ValueError` if the path already exists, else store the
card and append the path to the `disabled` list. -/
def registerAgent (path : Str) (tags : List Str) (s : AgentStore) :
    Except Str AgentStore :=
  if s.agents.any (fun p => p.1 == path) then
    .error ("Agent path '".toList ++ path ++ "' already exists".toList)
  else
    .ok ⟨s.agents ++ [(path, tags)], s.enabled, s.disabled ++ [path]⟩

/-- `enable_agent`: `ValueError` when unknown; no-op when already enabled;
otherwise remove from `disabled` (when present) and append to `enabled`. -/
def enableAgent (path : Str) (s : AgentStore) : Except Str AgentStore :=
  if ¬ s.agents.any (fun p => p.1 == path) then
    .error ("Agent not found at path: ".toList ++ path)
  else if path ∈ s.enabled then .ok s
  else
    .ok ⟨s.agents, s.enabled ++ [path],
      if path ∈ s.disabled then s.disabled.erase path else s.disabled⟩

/-- `disable_agent`, symmetric to `enable_agent`. -/
def disableAgent (path : Str) (s : AgentStore) : Except Str AgentStore :=
  if ¬ s.agents.any (fun p => p.1 == path) then
    .error ("Agent not found at path: ".toList ++ path)
  else if path ∈ s.disabled then .ok s
  else
    .ok ⟨s.agents,
      if path ∈ s.enabled then s.enabled.erase path else s.enabled,
      s.disabled ++ [path]⟩

/-- `delete_agent`: `ValueError` when unknown; removes the file (elided), the
registry entry and both state-list occurrences. -/
def deleteAgent (path : Str) (s : AgentStore) : Except Str AgentStore :=
  if ¬ s.agents.any (fun p => p.1 == path) then
    .error ("Agent not found at path: ".toList ++ path)
  else
    .ok ⟨s.agents.eraseP (fun p => p.1 == path),
      if path ∈ s.enabled then s.enabled.erase path else s.enabled,
      if path ∈ s.disabled then s.disabled.erase path else s.disabled⟩

/-- `toggle_agent`: dispatches to enable/disable, converting `ValueError`
into a `False` return with the state unchanged. -/
def toggleAgent (path : Str) (enabled : Bool) (s : AgentStore) :
    Bool × AgentStore :=
  match (if enabled then enableAgent path s else disableAgent path s) with
  | .ok s' => (true, s')
  | .error _ => (false, s)

/-- One public mutation of the store, as used by the API routes. -/
inductive StoreOp where
  | register (path : Str) (tags : List Str)
  | enable (path : Str)
  | disable (path : Str)
  | delete (path : Str)
deriving DecidableEq

/-- Apply one operation; a raised `ValueError` leaves the state unchanged
(the source mutates only after its precondition checks pass). -/
def applyOp (s : AgentStore) : StoreOp → AgentStore
  | .register p tg => match registerAgent p tg s with
      | .ok s' => s'
      | .error _ => s
  | .enable p => match enableAgent p s with
      | .ok s' => s'
      | .error _ => s
  | .disable p => match disableAgent p s with
      | .ok s' => s'
      | .error _ => s
  | .delete p => match deleteAgent p s with
      | .ok s' => s'
      | .error _ => s

/-- Run a sequence of store operations from the empty initial state. -/
def runOps (ops : List StoreOp) : AgentStore := ops.foldl applyOp emptyStore

/-!  ## Security scan on agent registration (`agent_routes.py`)  -/

/-- The agent-security configuration flags consulted by the registration
scan workflow. -/
structure AgentScanConfig where
  enabled : Bool
  scan_on_registration : Bool
  block_unsafe_agents : Bool
  add_security_pending_tag : Bool
deriving DecidableEq

/-- Python `path.rstrip("/")`. -/
def rstripSlash (p : Str) : Str :=
  (p.reverse.dropWhile (· == '/')).reverse

/-- The alternate path form tried by `get_agent` (with/without a trailing
slash). -/
def alternatePath (p : Str) : Str :=
  if endsWithStr p ("/".toList) then rstripSlash p else p ++ "/".toList

/-- `get_agent_info` / `get_agent` reduced to the stored tags: exact lookup
first, then the alternate form; `None` when both miss. -/
def getAgentInfoTags (s : AgentStore) (path : Str) : Option (List Str) :=
  match s.agents.lookup path with
  | some tg => some tg
  | none => s.agents.lookup (alternatePath path)

/-- The in-place mutation `agent_card.tags = current_tags`: the card object
passed to the scan workflow is the very object stored in
`registered_agents`, so the stored tags change with it. -/
def setAgentTags (s : AgentStore) (path : Str) (tags : List Str) : AgentStore :=
  ⟨s.agents.map (fun pr => if pr.1 == path then (pr.1, tags) else pr),
    s.enabled, s.disabled⟩

/-- `_perform_agent_security_scan_on_registration` of `agent_routes.py`.

Inputs: the configuration, the `is_safe` verdict of the (total, C4)
`scan_agent` call, the agent path, the tags of the in-flight agent card
(aliasing the stored card), and the store.  Output: the returned
"remains enabled" flag, the resulting store, and the FAISS
`add_or_update_entity` calls as `(path, is_enabled)` records.

The body's `try` is modelled by an `Except` for the tag-update step: a
`ValueError` raised by `register_agent` aborts the rest of the block and the
outer handler returns `True`. -/
def performAgentScanOnRegistration (cfg : AgentScanConfig) (scanIsSafe : Bool)
    (path : Str) (cardTags : List Str) (s : AgentStore) :
    Bool × AgentStore × List (Str × Bool) :=
  if ¬ (cfg.enabled ∧ cfg.scan_on_registration) then (true, s, [])
  else if scanIsSafe then (true, s, [])
  else
    let tagStep : Except AgentStore AgentStore :=
      if cfg.add_security_pending_tag ∧ "security-pending".toList ∉ cardTags then
        let newTags := cardTags ++ ["security-pending".toList]
        let s1 := setAgentTags s path newTags
        match getAgentInfoTags s1 path with
        | some _ =>
            match registerAgent path newTags s1 with
            | .ok s2 => .ok s2
            | .error _ => .error s1
        | none => .ok s1
      else .ok s
    match tagStep with
    | .error sErr => (true, sErr, [])
    | .ok s1 =>
        if cfg.block_unsafe_agents then
          let t := toggleAgent path false s1
          (false, t.2, [(path, false)])
        else (true, s1, [])

/-!  ## Rating service (`rating_service.py`)  -/

/-- One entry of a `rating_details` list. -/
structure RatingEntry where
  user : Str
  rating : Int
deriving DecidableEq

/-- The in-place update loop of `update_rating_details`: set the rating of
the first entry whose `user` matches, or report that none matched. -/
def updateFirstRating : List RatingEntry → Str → Int → Option (List RatingEntry)
  | [], _, _ => none
  | e :: rest, u, r =>
    if e.user == u then some (⟨e.user, r⟩ :: rest)
    else match updateFirstRating rest u r with
      | some rest' => some (e :: rest')
      | none => none

/-- `update_rating_details`: update in place when the user already rated,
else append and, when the length exceeds 100, drop the oldest entry.
Returns `(updated_list, is_new_rating)`. -/
def updateRatingDetails (ratingDetails : List RatingEntry) (username : Str)
    (rating : Int) : List RatingEntry × Bool :=
  match updateFirstRating ratingDetails username rating with
  | some l' => (l', false)
  | none =>
      let appended := ratingDetails ++ [⟨username, rating⟩]
      (if 100 < appended.length then appended.tail else appended, true)

/-- `calculate_average_rating`: `ValueError` (here `none`) on an empty list,
else the arithmetic mean. -/
def calculateAverageRating (ratingDetails : List RatingEntry) : Option ℚ :=
  if ratingDetails.isEmpty then none
  else some ((((ratingDetails.map RatingEntry.rating).sum : Int) : ℚ)
    / (ratingDetails.length : ℚ))

/-!  ## Hybrid search (`search/service.py`)  -/

/-- The stopword set of `_calculate_keyword_boost` and
`_extract_matching_tools` (identical in both). -/
def stopwords : List Str :=
  ["a".toList, "an".toList, "the".toList, "is".toList, "are".toList,
   "was".toList, "were".toList, "be".toList, "been".toList, "being".toList,
   "have".toList, "has".toList, "had".toList, "do".toList, "does".toList,
   "did".toList, "will".toList, "would".toList, "could".toList,
   "should".toList, "may".toList, "might".toList, "can".toList, "to".toList,
   "of".toList, "in".toList, "on".toList, "at".toList, "by".toList,
   "for".toList, "with".toList, "about".toList, "as".toList, "into".toList,
   "through".toList, "from".toList, "what".toList, "when".toList,
   "where".toList, "who".toList, "which".toList, "how".toList, "why".toList,
   "get".toList, "set".toList, "put".toList]

/-- Query tokenization shared by boost and tool extraction: split the
lower-cased query on `\W+`, keep tokens longer than 2 that are not
stopwords.  Order of first appearance is preserved (a Python list
comprehension). -/
def filteredQueryTokens (query : Str) : List Str :=
  (tokenize (lowerStr query)).filter
    (fun t => decide (2 < t.length) && !(stopwords.contains t))

/-- The boost's `query_tokens`: the same comprehension wrapped in `set(...)`.
`dedup` models the set; every use below is order-insensitive. -/
def boostQueryTokens (query : Str) : List Str :=
  (filteredQueryTokens query).dedup

/-- `any(token in hay for token in toks)`. -/
def anyTokenSub (toks : List Str) (hay : Str) : Bool :=
  toks.any (fun t => hasSub hay t)

/-- One tool record as consulted by the search service:
`{name, parsed_description: {main, summary, args}, description, schema}`.
`none` models a missing key; `some []` an empty string (both falsy for the
source's `or` chains). -/
structure ToolRec where
  name : Str
  parsedMain : Option Str
  summary : Option Str
  args : Option Str
  description : Option Str
deriving DecidableEq

/-- The `tool_desc` fallback chain of `_extract_matching_tools`:
`parsed_description.get("main") or tool.get("description") or
parsed_description.get("summary") or ""`. -/
def toolDescOf (t : ToolRec) : Str :=
  pyOrOpt t.parsedMain (pyOrOpt t.description (pyOrOpt t.summary []))

/-- `tool_args`: `parsed_description.get("args") or ""`. -/
def toolArgsOf (t : ToolRec) : Str := pyOrOpt t.args []

/-- The `server_info` metadata snapshot consulted by boost, extraction and
projection. -/
structure ServerInfo where
  server_name : Str
  description : Str
  tags : List Str
  tool_list : List ToolRec
  path : Str
  num_tools : Nat
  is_enabled : Bool
deriving DecidableEq

/-- Number of tools whose lower-cased name contains some query token
(the `tool_matches` loop). -/
def toolNameMatches (toks : List Str) (tools : List ToolRec) : Nat :=
  (tools.filter (fun tl => anyTokenSub toks (lowerStr tl.name))).length

/-- Number of tags containing some query token (the `tag_matches` sum). -/
def tagMatchCount (toks : List Str) (tags : List Str) : Nat :=
  (tags.filter (fun tg => anyTokenSub toks (lowerStr tg))).length

/-- Number of query tokens occurring in the (lower-cased) description
(the `desc_matches` sum). -/
def descMatchCount (toks : List Str) (descriptionL : Str) : Nat :=
  (toks.filter (fun t => hasSub descriptionL t)).length

/-- `_calculate_keyword_boost`, translated clause by clause: base 1.0;
`+0.5` on a server-name token hit; `+min(0.6, 0.3·tool_matches)` when
positive; `+min(0.4, 0.2·tag_matches)` when positive; the description
density `match_ratio·0.2` only when the description is non-empty and the
contribution exceeds `0.01`; result capped at 2.0. -/
def calculateKeywordBoost (query : Str) (si : ServerInfo) : ℚ :=
  let queryTokens := boostQueryTokens query
  if queryTokens.isEmpty then 1
  else
    let serverName := lowerStr si.server_name
    let boost1 : ℚ := if anyTokenSub queryTokens serverName then 1 + 1/2 else 1
    let toolBoost : ℚ :=
      min (3/5) ((toolNameMatches queryTokens si.tool_list : ℚ) * (3/10))
    let boost2 := if 0 < toolBoost then boost1 + toolBoost else boost1
    let tagBoost : ℚ :=
      min (2/5) ((tagMatchCount queryTokens si.tags : ℚ) * (1/5))
    let boost3 := if 0 < tagBoost then boost2 + tagBoost else boost2
    let descriptionL := lowerStr si.description
    let boost4 :=
      if descriptionL.isEmpty then boost3
      else
        let descBoost : ℚ :=
          ((descMatchCount queryTokens descriptionL : ℚ)
            / (queryTokens.length : ℚ)) * (1/5)
        if 1/100 < descBoost then boost3 + descBoost else boost3
    min 2 boost4

/-- The keyword-boost formula exactly as the specification claim words it:
`min(2, 1 + 0.5·[name match] + min(0.6, 0.3·tool_matches)
+ min(0.4, 0.2·tag_matches) + 0.2·desc_matches/|tokens|)`, with boost 1.0
when no tokens remain.  Written from the claim, to be compared with
`calculateKeywordBoost`. -/
def keywordBoostClaimed (query : Str) (si : ServerInfo) : ℚ :=
  let queryTokens := boostQueryTokens query
  if queryTokens.isEmpty then 1
  else
    min 2 (1
      + (if anyTokenSub queryTokens (lowerStr si.server_name) then 1/2 else 0)
      + min (3/5) ((toolNameMatches queryTokens si.tool_list : ℚ) * (3/10))
      + min (2/5) ((tagMatchCount queryTokens si.tags : ℚ) * (1/5))
      + (1/5) * ((descMatchCount queryTokens (lowerStr si.description) : ℚ)
          / (queryTokens.length : ℚ)))

/-- The claim's formula amended with the guard the source applies: the
description-density term is included only when it exceeds 0.01. -/
def keywordBoostGuarded (query : Str) (si : ServerInfo) : ℚ :=
  let queryTokens := boostQueryTokens query
  if queryTokens.isEmpty then 1
  else
    let descTerm : ℚ :=
      (1/5) * ((descMatchCount queryTokens (lowerStr si.description) : ℚ)
        / (queryTokens.length : ℚ))
    min 2 (1
      + (if anyTokenSub queryTokens (lowerStr si.server_name) then 1/2 else 0)
      + min (3/5) ((toolNameMatches queryTokens si.tool_list : ℚ) * (3/10))
      + min (2/5) ((tagMatchCount queryTokens si.tags : ℚ) * (1/5))
      + (if 1/100 < descTerm then descTerm else 0))

/-- `search_mixed` line: `relevance = min(1.0, base_relevance *
keyword_boost)` (the hit's final score). -/
def serverRelevance (query : Str) (baseRelevance : ℚ) (si : ServerInfo) : ℚ :=
  min 1 (baseRelevance * calculateKeywordBoost query si)

/-- `server_name_tokens` and the `server_name_match` test of
`_extract_matching_tools`: a query token occurs in the lower-cased server
name, or overlaps one of its tokens in either direction. -/
def serverNameMatchB (toks : List Str) (serverNameRaw : Str) : Bool :=
  let sn := lowerStr serverNameRaw
  let snToks := (tokenize sn).filter (fun t => decide (2 < t.length))
  toks.any (fun tok =>
    hasSub sn tok || snToks.any (fun snt => hasSub tok snt || hasSub snt tok))

/-- One entry of the extraction output (`schema` is carried verbatim in the
source and elided here). -/
structure ToolMatch where
  tool_name : Str
  description : Str
  match_context : Str
  raw_score : ℚ
deriving DecidableEq

/-- `matches.sort(key=lambda item: item[0], reverse=True)`: stable sort,
descending by score (the tuple key equals `raw_score`). -/
def sortToolMatches (l : List ToolMatch) : List ToolMatch :=
  l.mergeSort (fun a b => decide (b.raw_score ≤ a.raw_score))

/-- The per-tool body of `_extract_matching_tools`: skip when the searchable
text is blank; score `min(1, weighted/max_possible)` when keywords match;
fall back to the 0.5 base score on a server-name match; skip otherwise. -/
def toolMatchEntry (snMatch : Bool) (toks : List Str) (t : ToolRec) :
    Option ToolMatch :=
  let toolName := t.name
  let toolDesc := toolDescOf t
  let toolArgs := toolArgsOf t
  let searchable := lowerStr (toolName ++ [' '] ++ toolDesc ++ [' '] ++ toolArgs)
  if (stripWS searchable).isEmpty then none
  else
    let nameMatches := (toks.filter (fun tok => hasSub (lowerStr toolName) tok)).length
    let descMatches := (toks.filter (fun tok =>
      hasSub (lowerStr toolDesc) tok || hasSub (lowerStr toolArgs) tok)).length
    let weighted : ℚ := (nameMatches : ℚ) * 2 + (descMatches : ℚ)
    let maxPossible : ℚ := (toks.length : ℚ) * 2
    let ctx := (pyOrS toolDesc (pyOrS toolArgs [])).take 180
    if weighted = 0 ∧ snMatch = true then
      some ⟨toolName, toolDesc, ctx, 1/2⟩
    else if weighted = 0 then none
    else some ⟨toolName, toolDesc, ctx, min 1 (weighted / maxPossible)⟩

/-- `_extract_matching_tools`: tokenization, server-name matching, per-tool
scoring and the descending stable sort. -/
def extractMatchingTools (query : Str) (si : ServerInfo) : List ToolMatch :=
  if si.tool_list.isEmpty then []
  else
    let toks := filteredQueryTokens query
    if toks.isEmpty then []
    else
      sortToolMatches
        (si.tool_list.filterMap
          (toolMatchEntry (serverNameMatchB toks si.server_name) toks))

/-- The per-tool rule exactly as the specification claim words it: include
with `raw_score = weighted/max_possible` when `weighted > 0`, with 0.5 on a
server-name match, skip otherwise — no cap, no blank-text skip.  Written
from the claim, to be compared with `toolMatchEntry`. -/
def toolMatchEntryClaimed (snMatch : Bool) (toks : List Str) (t : ToolRec) :
    Option ToolMatch :=
  let toolName := t.name
  let toolDesc := toolDescOf t
  let toolArgs := toolArgsOf t
  let nameMatches := (toks.filter (fun tok => hasSub (lowerStr toolName) tok)).length
  let descMatches := (toks.filter (fun tok =>
    hasSub (lowerStr toolDesc) tok || hasSub (lowerStr toolArgs) tok)).length
  let weighted : ℚ := (nameMatches : ℚ) * 2 + (descMatches : ℚ)
  let maxPossible : ℚ := (toks.length : ℚ) * 2
  let ctx := (pyOrS toolDesc (pyOrS toolArgs [])).take 180
  if 0 < weighted then
    some ⟨toolName, toolDesc, ctx, weighted / maxPossible⟩
  else if snMatch then some ⟨toolName, toolDesc, ctx, 1/2⟩
  else none

/-- Tool extraction as the claim words it (same shell as the source's). -/
def extractToolsClaimed (query : Str) (si : ServerInfo) : List ToolMatch :=
  if si.tool_list.isEmpty then []
  else
    let toks := filteredQueryTokens query
    if toks.isEmpty then []
    else
      sortToolMatches
        (si.tool_list.filterMap
          (toolMatchEntryClaimed (serverNameMatchB toks si.server_name) toks))

/-- The claim's per-tool rule amended with what the source actually does:
the score is capped at 1 and tools whose name, description and args are all
blank are skipped. -/
def toolMatchEntryAmended (snMatch : Bool) (toks : List Str) (t : ToolRec) :
    Option ToolMatch :=
  let toolName := t.name
  let toolDesc := toolDescOf t
  let toolArgs := toolArgsOf t
  let searchable := lowerStr (toolName ++ [' '] ++ toolDesc ++ [' '] ++ toolArgs)
  if (stripWS searchable).isEmpty then none
  else
    let nameMatches := (toks.filter (fun tok => hasSub (lowerStr toolName) tok)).length
    let descMatches := (toks.filter (fun tok =>
      hasSub (lowerStr toolDesc) tok || hasSub (lowerStr toolArgs) tok)).length
    let weighted : ℚ := (nameMatches : ℚ) * 2 + (descMatches : ℚ)
    let maxPossible : ℚ := (toks.length : ℚ) * 2
    let ctx := (pyOrS toolDesc (pyOrS toolArgs [])).take 180
    if 0 < weighted then
      some ⟨toolName, toolDesc, ctx, min 1 (weighted / maxPossible)⟩
    else if snMatch then some ⟨toolName, toolDesc, ctx, 1/2⟩
    else none

/-- Tool extraction per the amended claim. -/
def extractToolsAmended (query : Str) (si : ServerInfo) : List ToolMatch :=
  if si.tool_list.isEmpty then []
  else
    let toks := filteredQueryTokens query
    if toks.isEmpty then []
    else
      sortToolMatches
        (si.tool_list.filterMap
          (toolMatchEntryAmended (serverNameMatchB toks si.server_name) toks))

/-- A projected tool result of the `tools` bucket of `search_mixed`. -/
structure ToolSearchResult where
  server_path : Str
  server_name : Str
  tool_name : Str
  description : Str
  match_context : Str
  relevance_score : ℚ
deriving DecidableEq

/-- The tool projection of `search_mixed`: top 5 extracted tools per server,
each with `relevance_score = min(1, (final_server_score + raw_score)/2)`. -/
def projectToolResults (query : Str) (si : ServerInfo) (path : Str)
    (relevance : ℚ) : List ToolSearchResult :=
  ((extractMatchingTools query si).take 5).map
    (fun t => ⟨path, si.server_name, t.tool_name, t.description,
      t.match_context, min 1 ((relevance + t.raw_score) / 2)⟩)

/-- The tool projection per the amended claim. -/
def projectToolResultsAmended (query : Str) (si : ServerInfo) (path : Str)
    (relevance : ℚ) : List ToolSearchResult :=
  ((extractToolsAmended query si).take 5).map
    (fun t => ⟨path, si.server_name, t.tool_name, t.description,
      t.match_context, min 1 ((relevance + t.raw_score) / 2)⟩)

/-- `_distance_to_relevance`: handles both distance conventions and clamps
to `[0, 1]`. -/
def distanceToRelevance (d : ℚ) : ℚ :=
  let similarity := if d < 0 then -d else 1 - d
  max 0 (min 1 similarity)

/-- The agent-card snapshot consulted by `search_mixed` (skills reduced to
their names, as the source does for scoring and display). -/
structure AgentCardInfo where
  name : Str
  description : Str
  tags : List Str
  skills : List Str
  visibility : Str
  trust_level : Option Str
  is_enabled : Bool
deriving DecidableEq

/-- `agent_info_for_boost`: the dict `search_mixed` feeds to
`_calculate_keyword_boost` for agent hits (skill names act as tool names;
the remaining `ServerInfo` fields are not read by the boost). -/
def agentBoostInfo (card : AgentCardInfo) : ServerInfo :=
  ⟨card.name, card.description, card.tags,
    card.skills.map (fun nm => ⟨nm, none, none, none, none⟩),
    [], 0, false⟩

/-- A metadata-store entry as consulted per hit. -/
structure MetaEntry where
  entity_type : Str
  full_server_info : Option ServerInfo
  full_agent_card : Option AgentCardInfo
deriving DecidableEq

/-- One FAISS hit after the id → path lookup: `missing` covers `faiss_id ==
-1` and ids whose path is no longer in the metadata store. -/
inductive SearchHit where
  | missing
  | found (distance : ℚ) (path : Str) (entry : MetaEntry)
deriving DecidableEq

/-- A `servers`-bucket entry of `search_mixed` (the nested `matching_tools`
display list reuses `ToolSearchResult`, whose `server_path`/`server_name`
fields hold the same values the source repeats there). -/
structure ServerSearchResult where
  path : Str
  server_name : Str
  description : Str
  tags : List Str
  num_tools : Nat
  is_enabled : Bool
  relevance_score : ℚ
  match_context : Str
  matching_tools : List ToolSearchResult
deriving DecidableEq

/-- An `agents`-bucket entry of `search_mixed`. -/
structure AgentSearchResult where
  path : Str
  agent_name : Str
  description : Str
  tags : List Str
  skills : List Str
  visibility : Str
  trust_level : Option Str
  is_enabled : Bool
  relevance_score : ℚ
  match_context : Str
deriving DecidableEq

/-- The three result buckets of `search_mixed`. -/
structure SearchBuckets where
  servers : List ServerSearchResult
  tools : List ToolSearchResult
  agents : List AgentSearchResult
deriving DecidableEq

/-- The entity filter of `search_mixed`: `set(entity_types or default)`
intersected with the allowed kinds, falling back to all three kinds when
the intersection is empty.  Only membership of the three allowed names is
consulted downstream, so the set is represented by its three membership
bits `(mcp_server, tool, a2a_agent)`. -/
def entityFilter (entityTypes : Option (List Str)) : Bool × Bool × Bool :=
  let requested :=
    match entityTypes with
    | none => ["mcp_server".toList, "tool".toList, "a2a_agent".toList]
    | some [] => ["mcp_server".toList, "tool".toList, "a2a_agent".toList]
    | some ts => ts
  let f := (requested.contains ("mcp_server".toList),
            requested.contains ("tool".toList),
            requested.contains ("a2a_agent".toList))
  if f = (false, false, false) then (true, true, true) else f

/-- The per-hit body of the `search_mixed` loop. -/
def processHit (query : Str) (ef : Bool × Bool × Bool) (acc : SearchBuckets)
    (h : SearchHit) : SearchBuckets :=
  match h with
  | .missing => acc
  | .found d path entry =>
    if entry.entity_type = "mcp_server".toList then
      match entry.full_server_info with
      | none => acc
      | some si =>
        let relevance := serverRelevance query (distanceToRelevance d) si
        let matchContext := pyOrS si.description (pyOrS (joinComma si.tags) si.path)
        let matchingTools :=
          if ef.2.1 then (extractMatchingTools query si).take 5 else []
        let nested := matchingTools.map
          (fun t => (⟨path, si.server_name, t.tool_name, t.description,
            t.match_context, min 1 ((relevance + t.raw_score) / 2)⟩ :
              ToolSearchResult))
        let acc1 :=
          if ef.1 then
            { acc with servers := acc.servers ++
              [⟨path, si.server_name, si.description, si.tags, si.num_tools,
                si.is_enabled, relevance, matchContext, nested⟩] }
          else acc
        if ef.2.1 ∧ ¬ matchingTools.isEmpty then
          { acc1 with tools := acc1.tools ++ nested }
        else acc1
    else if entry.entity_type = "a2a_agent".toList then
      if ef.2.2 = false then acc
      else
        match entry.full_agent_card with
        | none => acc
        | some card =>
          let rel := min 1 (distanceToRelevance d
            * calculateKeywordBoost query (agentBoostInfo card))
          let matchContext := pyOrS card.description
            (pyOrS (joinComma card.skills) (joinComma card.tags))
          { acc with agents := acc.agents ++
            [⟨path, card.name, card.description, card.tags, card.skills,
              card.visibility, card.trust_level, card.is_enabled, rel,
              matchContext⟩] }
    else acc

/-- Stable descending sort of a bucket by `relevance_score`. -/
def sortServerResults (l : List ServerSearchResult) : List ServerSearchResult :=
  l.mergeSort (fun a b => decide (b.relevance_score ≤ a.relevance_score))

/-- Stable descending sort of the tools bucket. -/
def sortToolResults (l : List ToolSearchResult) : List ToolSearchResult :=
  l.mergeSort (fun a b => decide (b.relevance_score ≤ a.relevance_score))

/-- Stable descending sort of the agents bucket. -/
def sortAgentResults (l : List AgentSearchResult) : List AgentSearchResult :=
  l.mergeSort (fun a b => decide (b.relevance_score ≤ a.relevance_score))

/-- `search_mixed` downstream of the entity filter: fold the hits into
buckets, sort each bucket by relevance descending, truncate to the clamped
`max_results`. -/
def searchMixedWithFilter (query : Str) (ef : Bool × Bool × Bool)
    (maxResults : Nat) (hits : List SearchHit) : SearchBuckets :=
  let m := max 1 (min maxResults 50)
  let r := hits.foldl (processHit query ef) ⟨[], [], []⟩
  ⟨(sortServerResults r.servers).take m, (sortToolResults r.tools).take m,
    (sortAgentResults r.agents).take m⟩

/-- `search_mixed` (its pure core): the embedding lookup and FAISS kNN are
abstracted into the `hits` input; everything after — filter, scoring,
bucketing, sorting, truncation — is computed here. -/
def searchMixed (query : Str) (entityTypes : Option (List Str))
    (maxResults : Nat) (hits : List SearchHit) : SearchBuckets :=
  searchMixedWithFilter query (entityFilter entityTypes) maxResults hits

/-!  ## Embedding normalization (`_normalize_embedding`)  -/

/-- `np.linalg.norm` of a 1-D vector: the square root of the sum of
squares, over `ℝ`. -/
noncomputable def l2norm (v : List ℝ) : ℝ :=
  Real.sqrt ((v.map (fun x => x * x)).sum)

/-- `_normalize_embedding`: return the vector unchanged when its norm is 0,
else divide every coordinate by the norm.  The division branch is guarded
by `norm ≠ 0`. -/
noncomputable def normalizeEmbedding (v : List ℝ) : List ℝ :=
  if l2norm v = 0 then v else v.map (fun x => x / l2norm v)

/-- A query with 21 distinct non-stopword tokens, used to probe the
description-density guard of `_calculate_keyword_boost`. -/
def guardQuery : Str :=
  "aaa aab aac aad aae aaf aag aah aai aaj aak aal aam aan aao aap aaq aar aas aat aau".toList

/-- A server snapshot whose description contains exactly one `guardQuery`
token and which matches it nowhere else. -/
def guardServer : ServerInfo :=
  ⟨[], "aaa".toList, [], [], [], 0, false⟩

/-- A tool whose name and parsed main description both equal `abc`: a query
token hitting both makes `weighted = 3 > max_possible = 2`. -/
def capTool : ToolRec := ⟨"abc".toList, some ("abc".toList), none, none, none⟩

/-- A server carrying only `capTool`, with a name the query does not
match. -/
def capServer : ServerInfo :=
  ⟨"srv".toList, [], [], [capTool], "/s".toList, 1, true⟩

/-- The state-document invariant of the spec (§3.4), strengthened with the
no-duplicates facts the operations maintain: registered paths, enabled and
disabled lists are duplicate-free, the two lists are disjoint, and their
union is exactly the registered paths. -/
def StoreInv (s : AgentStore) : Prop :=
  s.paths.Nodup ∧ s.enabled.Nodup ∧ s.disabled.Nodup ∧
  (∀ p, ¬(p ∈ s.enabled ∧ p ∈ s.disabled)) ∧
  (∀ p, (p ∈ s.enabled ∨ p ∈ s.disabled) ↔ p ∈ s.paths)

/-!  ## Theorems  -/

/-- C1 counterexample: the claimed biconditional
`is_safe ⇔ critical_issues = 0 ∧ high_severity = 0` fails on the result the
agent scanner constructs when the scan itself fails (a 30-second timeout):
that result has `is_safe = false` while both counts are 0. -/
theorem scanSafeIffCounterexample :
    ¬ (((scanAgent ("/a".toList) ("yara,spec".toList) ("T".toList)
          (AgentScanOutcome.timeout 30)).1.is_safe = true) ↔
        ((scanAgent ("/a".toList) ("yara,spec".toList) ("T".toList)
          (AgentScanOutcome.timeout 30)).1.critical_issues = 0 ∧
         (scanAgent ("/a".toList) ("yara,spec".toList) ("T".toList)
          (AgentScanOutcome.timeout 30)).1.high_severity = 0)) := by
  have h1 : (scanAgent ("/a".toList) ("yara,spec".toList) ("T".toList)
      (AgentScanOutcome.timeout 30)).1.is_safe = false := rfl
  have h2 : (scanAgent ("/a".toList) ("yara,spec".toList) ("T".toList)
      (AgentScanOutcome.timeout 30)).1.critical_issues = 0 := rfl
  have h3 : (scanAgent ("/a".toList) ("yara,spec".toList) ("T".toList)
      (AgentScanOutcome.timeout 30)).1.high_severity = 0 := rfl
  intro h
  have := h.mpr ⟨h2, h3⟩
  rw [h1] at this
  exact Bool.false_ne_true this

/-- C1 (amended): for every result either scanner service constructs, if the
scan did not fail then `is_safe ⇔ critical_issues = 0 ∧ high_severity = 0`;
if it failed then `is_safe = false` while all severity counts are 0 (so only
the forward direction of the biconditional survives). -/
theorem scanSafeIff (u a t p : Str) (so : ServerScanOutcome)
    (ao : AgentScanOutcome) :
    ((scanServer u a t so).1.scan_failed = false →
      ((scanServer u a t so).1.is_safe = true ↔
        ((scanServer u a t so).1.critical_issues = 0 ∧
         (scanServer u a t so).1.high_severity = 0))) ∧
    ((scanServer u a t so).1.scan_failed = true →
      (scanServer u a t so).1.is_safe = false ∧
      (scanServer u a t so).1.critical_issues = 0 ∧
      (scanServer u a t so).1.high_severity = 0) ∧
    ((scanAgent p a t ao).1.scan_failed = false →
      ((scanAgent p a t ao).1.is_safe = true ↔
        ((scanAgent p a t ao).1.critical_issues = 0 ∧
         (scanAgent p a t ao).1.high_severity = 0))) ∧
    ((scanAgent p a t ao).1.scan_failed = true →
      (scanAgent p a t ao).1.is_safe = false ∧
      (scanAgent p a t ao).1.critical_issues = 0 ∧
      (scanAgent p a t ao).1.high_severity = 0) := by
  refine ⟨?_, ?_, ?_, ?_⟩ <;>
    [cases so; cases so; cases ao; cases ao] <;>
    simp [scanServer, scanAgent, analyzeScanResults]

/-- C1 witness: the amended theorem applied at a successful (empty-findings)
server scan and a timed-out agent scan. -/
theorem scanSafeIffWitness :
    (((scanServer ("u".toList) ("y".toList) ("t".toList)
        (ServerScanOutcome.success [])).1.is_safe = true ↔
      ((scanServer ("u".toList) ("y".toList) ("t".toList)
        (ServerScanOutcome.success [])).1.critical_issues = 0 ∧
       (scanServer ("u".toList) ("y".toList) ("t".toList)
        (ServerScanOutcome.success [])).1.high_severity = 0))) ∧
    ((scanAgent ("/a".toList) ("y".toList) ("t".toList)
        (AgentScanOutcome.timeout 5)).1.is_safe = false ∧
      (scanAgent ("/a".toList) ("y".toList) ("t".toList)
        (AgentScanOutcome.timeout 5)).1.critical_issues = 0 ∧
      (scanAgent ("/a".toList) ("y".toList) ("t".toList)
        (AgentScanOutcome.timeout 5)).1.high_severity = 0) :=
  ⟨(scanSafeIff ("u".toList) ("y".toList) ("t".toList) ("/a".toList)
      (ServerScanOutcome.success []) (AgentScanOutcome.timeout 5)).1 rfl,
   (scanSafeIff ("u".toList) ("y".toList) ("t".toList) ("/a".toList)
      (ServerScanOutcome.success []) (AgentScanOutcome.timeout 5)).2.2.2 rfl⟩

/-- C4: both scanners are total (never raise to the caller: every outcome,
including subprocess failure, timeout, and unparseable output, yields a
result), and on failure the result is fail-closed: `scan_failed = true`,
`is_safe = false`, a non-empty `error_message`, and the error payload is
written to both tiers (the dated archive file and the latest file). -/
theorem scanFailClosed :
    (∀ (u a t : Str) (o : ServerScanOutcome) (m : Str),
      o.failMessage = some m →
      (scanServer u a t o).1.scan_failed = true ∧
      (scanServer u a t o).1.is_safe = false ∧
      (scanServer u a t o).1.error_message = some m ∧ m ≠ [] ∧
      ((scanServer u a t o).2.map ScanFileWrite.tier
        = [ScanFileTier.archived, ScanFileTier.latest]) ∧
      (∀ w ∈ (scanServer u a t o).2,
        w.payload = (⟨some m, [], true⟩ : RawOutput))) ∧
    (∀ (p a t : Str) (o : AgentScanOutcome) (m : Str),
      o.failMessage = some m →
      (scanAgent p a t o).1.scan_failed = true ∧
      (scanAgent p a t o).1.is_safe = false ∧
      (scanAgent p a t o).1.error_message = some m ∧ m ≠ [] ∧
      ((scanAgent p a t o).2.map ScanFileWrite.tier
        = [ScanFileTier.archived, ScanFileTier.latest]) ∧
      (∀ w ∈ (scanAgent p a t o).2,
        w.payload = (⟨some m, [], true⟩ : RawOutput))) := by
  constructor
  · intro u a t o m hm
    cases o <;> simp_all [ServerScanOutcome.failMessage, scanServer,
      saveServerScanOutput] <;> subst hm <;>
      simp [List.append_ne_nil_of_left_ne_nil]
  · intro p a t o m hm
    cases o <;> simp_all [AgentScanOutcome.failMessage, scanAgent,
      saveAgentScanOutput] <;> subst hm <;>
      simp [List.append_ne_nil_of_left_ne_nil]

/-- C4 witness: the fail-closed theorem applied at a concrete
unparseable-output failure of the server scanner. -/
theorem scanFailClosedWitness :
    ("No JSON array found in scanner output".toList ≠ ([] : Str)) ∧
    ((scanServer ("u".toList) ("y".toList) ("t".toList)
        ServerScanOutcome.noJsonArray).2.map ScanFileWrite.tier
      = [ScanFileTier.archived, ScanFileTier.latest]) :=
  ⟨(scanFailClosed.1 ("u".toList) ("y".toList) ("t".toList)
      ServerScanOutcome.noJsonArray _ rfl).2.2.2.1,
   (scanFailClosed.1 ("u".toList) ("y".toList) ("t".toList)
      ServerScanOutcome.noJsonArray _ rfl).2.2.2.2.1⟩

/-- Sum of a list mapped by `x ↦ f x * r` pulls the factor out. -/
theorem sum_map_mul_right_list (l : List ℝ) (f : ℝ → ℝ) (r : ℝ) :
    (l.map (fun x => f x * r)).sum = (l.map f).sum * r := by
  induction l with
  | nil => simp
  | cons a t ih => simp [ih, add_mul]

/-- The sum of squares of a vector is non-negative. -/
theorem sumSquaresNonneg (v : List ℝ) : 0 ≤ (v.map (fun x => x * x)).sum := by
  apply List.sum_nonneg
  intro y hy
  obtain ⟨x, _, rfl⟩ := List.mem_map.mp hy
  exact mul_self_nonneg x

/-- C9: `_normalize_embedding` never divides by zero — a zero-norm vector is
returned unchanged (the division branch is unreachable there), and any other
vector is divided coordinate-wise by its norm, yielding a unit-length
vector. -/
theorem normalizeEmbeddingSpec (v : List ℝ) :
    (l2norm v = 0 → normalizeEmbedding v = v) ∧
    (l2norm v ≠ 0 →
      normalizeEmbedding v = v.map (fun x => x / l2norm v) ∧
      l2norm (normalizeEmbedding v) = 1) := by
  constructor
  · intro h
    simp [normalizeEmbedding, h]
  · intro h
    have hform : normalizeEmbedding v = v.map (fun x => x / l2norm v) := by
      simp [normalizeEmbedding, h]
    refine ⟨hform, ?_⟩
    have hS : 0 ≤ (v.map (fun x => x * x)).sum := sumSquaresNonneg v
    have hc2 : l2norm v ^ 2 = (v.map (fun x => x * x)).sum := by
      simpa [l2norm] using Real.sq_sqrt hS
    rw [hform]
    generalize hc : l2norm v = c at h hc2
    unfold l2norm
    rw [List.map_map]
    have hmap : ((fun x => x * x) ∘ fun x => x / c)
        = fun x => (x * x) * (c ^ 2)⁻¹ := by
      funext x
      simp only [Function.comp]
      ring
    rw [hmap, sum_map_mul_right_list, ← hc2,
      mul_inv_cancel₀ (pow_ne_zero 2 h)]
    exact Real.sqrt_one

/-- Concrete norm used by the C9 witness: `‖(3, 4)‖ = 5`. -/
theorem l2normThreeFour : l2norm [(3 : ℝ), 4] = 5 := by
  have : ((([(3 : ℝ), 4]).map (fun x => x * x)).sum) = 25 := by norm_num
  rw [l2norm, this, show (25 : ℝ) = 5 ^ 2 by norm_num]
  exact Real.sqrt_sq (by norm_num)

/-- C9 witness: the vector `(3, 4)` has non-zero norm and normalizes to a
unit vector. -/
theorem normalizeEmbeddingWitness :
    l2norm [(3 : ℝ), 4] ≠ 0 ∧ l2norm (normalizeEmbedding [(3 : ℝ), 4]) = 1 :=
  ⟨by rw [l2normThreeFour]; norm_num,
   ((normalizeEmbeddingSpec [(3 : ℝ), 4]).2
      (by rw [l2normThreeFour]; norm_num)).2⟩

/-- C10: a non-empty `entity_types` list none of whose elements is an
allowed kind is silently replaced by the full set, so `search_mixed`
behaves exactly as if all three kinds had been requested. -/
theorem invalidEntityTypesFallBack (q : Str) (ets : List Str) (m : Nat)
    (hits : List SearchHit) (hne : ets ≠ [])
    (h1 : "mcp_server".toList ∉ ets) (h2 : "tool".toList ∉ ets)
    (h3 : "a2a_agent".toList ∉ ets) :
    searchMixed q (some ets) m hits
      = searchMixed q
          (some ["mcp_server".toList, "tool".toList, "a2a_agent".toList])
          m hits := by
  unfold searchMixed
  congr 1
  unfold entityFilter
  cases ets with
  | nil => exact absurd rfl hne
  | cons a t =>
    have c1 : ((a :: t).contains ("mcp_server".toList)) = false := by
      simpa using h1
    have c2 : ((a :: t).contains ("tool".toList)) = false := by
      simpa using h2
    have c3 : ((a :: t).contains ("a2a_agent".toList)) = false := by
      simpa using h3
    simp only [c1, c2, c3]
    decide

/-- C10 witness: the fallback theorem applied at the concrete invalid filter
`["bogus"]`. -/
theorem invalidEntityTypesFallBackWitness :
    searchMixed ("db".toList) (some ["bogus".toList]) 10 []
      = searchMixed ("db".toList)
          (some ["mcp_server".toList, "tool".toList, "a2a_agent".toList])
          10 [] :=
  invalidEntityTypesFallBack _ _ _ _ (by decide) (by decide) (by decide)
    (by decide)


/-- The update loop reports no match exactly when the user has no entry. -/
theorem updateFirstRating_eq_none (l : List RatingEntry) (u : Str) (r : Int) :
    updateFirstRating l u r = none ↔ u ∉ l.map RatingEntry.user := by
  induction l with
  | nil => simp [updateFirstRating]
  | cons e t ih =>
    by_cases he : e.user = u
    · have hstep : updateFirstRating (e :: t) u r = some (⟨e.user, r⟩ :: t) := by
        simp [updateFirstRating, he]
      rw [hstep, List.map_cons]
      simp [he]
    · have hstep : updateFirstRating (e :: t) u r
          = match updateFirstRating t u r with
            | some rest' => some (e :: rest')
            | none => none := by
        simp [updateFirstRating, he]
      cases h : updateFirstRating t u r with
      | none =>
        rw [hstep, h, List.map_cons]
        simp only [List.mem_cons, not_or]
        constructor
        · intro _
          exact ⟨Ne.symm he, ih.mp h⟩
        · intro _
          trivial
      | some l' =>
        have hmem : u ∈ t.map RatingEntry.user := by
          by_contra hmem
          rw [ih.mpr hmem] at h
          exact Option.noConfusion h
        rw [hstep, h, List.map_cons]
        simp [hmem]

/-- With unique users, updating a present user rewrites exactly that entry
and leaves every other entry (and the order) unchanged. -/
theorem updateFirstRating_of_mem (l : List RatingEntry) (u : Str) (r : Int)
    (hnd : (l.map RatingEntry.user).Nodup)
    (hmem : u ∈ l.map RatingEntry.user) :
    updateFirstRating l u r
      = some (l.map (fun e => if e.user = u then ⟨u, r⟩ else e)) := by
  induction l with
  | nil => simp at hmem
  | cons e t ih =>
    simp only [List.map_cons, List.nodup_cons] at hnd
    rw [List.map_cons, List.mem_cons] at hmem
    by_cases he : e.user = u
    · have ht : t.map (fun e => if e.user = u then (⟨u, r⟩ : RatingEntry) else e)
          = t := by
        have hcong : ∀ x ∈ t,
            (if x.user = u then (⟨u, r⟩ : RatingEntry) else x) = x := by
          intro x hx
          have hxu : x.user ≠ u := by
            intro hxu
            exact hnd.1 (he ▸ hxu ▸ List.mem_map_of_mem RatingEntry.user hx)
          simp [hxu]
        rw [List.map_congr_left hcong]
        exact List.map_id t
      have hstep : updateFirstRating (e :: t) u r
          = some (⟨e.user, r⟩ :: t) := by
        simp [updateFirstRating, he]
      rw [hstep, List.map_cons, ht, if_pos he, he]
    · have hm' : u ∈ t.map RatingEntry.user := by
        rcases hmem with h | h
        · exact absurd h.symm he
        · exact h
      simp [updateFirstRating, he, ih hnd.2 hm']

/-- The users of the in-place-updated list are the original users. -/
theorem users_map_update (l : List RatingEntry) (u : Str) (r : Int) :
    (l.map (fun e => if e.user = u then (⟨u, r⟩ : RatingEntry) else e)).map
        RatingEntry.user = l.map RatingEntry.user := by
  rw [List.map_map]
  apply List.map_congr_left
  intro e _
  by_cases he : e.user = u <;> simp [he]

/-- C5: the rotating rating buffer.  Under the buffer invariant (at most 100
entries, unique users): updating a present user rewrites that entry in place
and changes nothing else; a new user is appended, and when the length would
exceed 100 the oldest entry is dropped; the result keeps the invariant and
`calculate_average_rating` returns the arithmetic mean of its ratings. -/
theorem ratingBufferSpec (l : List RatingEntry) (u : Str) (r : Int)
    (hlen : l.length ≤ 100) (hnodup : (l.map RatingEntry.user).Nodup) :
    (u ∈ l.map RatingEntry.user →
      (updateRatingDetails l u r).1
          = l.map (fun e => if e.user = u then ⟨u, r⟩ else e) ∧
      (updateRatingDetails l u r).2 = false ∧
      (updateRatingDetails l u r).1.length = l.length) ∧
    (u ∉ l.map RatingEntry.user →
      (updateRatingDetails l u r).2 = true ∧
      (l.length < 100 → (updateRatingDetails l u r).1 = l ++ [⟨u, r⟩]) ∧
      (l.length = 100 →
        (updateRatingDetails l u r).1 = l.tail ++ [⟨u, r⟩])) ∧
    (updateRatingDetails l u r).1.length ≤ 100 ∧
    ((updateRatingDetails l u r).1.map RatingEntry.user).Nodup ∧
    calculateAverageRating (updateRatingDetails l u r).1
      = some (((((updateRatingDetails l u r).1.map RatingEntry.rating).sum
            : Int) : ℚ)
          / (((updateRatingDetails l u r).1.length : Nat) : ℚ)) := by
  by_cases hu : u ∈ l.map RatingEntry.user
  · have heq := updateFirstRating_of_mem l u r hnodup hu
    have hupd : updateRatingDetails l u r
        = (l.map (fun e => if e.user = u then ⟨u, r⟩ else e), false) := by
      simp [updateRatingDetails, heq]
    have hne : l ≠ [] := by
      intro h
      rw [h] at hu
      simp at hu
    refine ⟨fun _ => ⟨by rw [hupd], by rw [hupd], by rw [hupd]; simp⟩,
      fun h => absurd hu h, ?_, ?_, ?_⟩
    · rw [hupd]
      simpa using hlen
    · rw [hupd]
      have goalmap := users_map_update l u r
      simp only [hupd]
      rw [goalmap]
      exact hnodup
    · rw [hupd]
      have hne' : (l.map
          (fun e => if e.user = u then (⟨u, r⟩ : RatingEntry) else e)).isEmpty
            = false := by
        cases l with
        | nil => exact absurd rfl hne
        | cons a b => rfl
      simp [calculateAverageRating, hne']
  · have heq : updateFirstRating l u r = none :=
      (updateFirstRating_eq_none l u r).mpr hu
    by_cases hl : l.length < 100
    · have hupd : updateRatingDetails l u r = (l ++ [⟨u, r⟩], true) := by
        have hno : ¬ (100 < (l ++ [(⟨u, r⟩ : RatingEntry)]).length) := by
          simp only [List.length_append, List.length_cons, List.length_nil]
          omega
        simp only [updateRatingDetails, heq]
        rw [if_neg hno]
      refine ⟨fun h => absurd h hu, fun _ => ?_, ?_, ?_, ?_⟩
      · exact ⟨by simp [hupd], fun _ => by simp [hupd],
          fun h100 => absurd h100 (by omega)⟩
      · rw [hupd]
        simp only [List.length_append, List.length_cons, List.length_nil]
        omega
      · rw [hupd]
        rw [List.map_append]
        rw [List.nodup_append]
        refine ⟨hnodup, by simp, ?_⟩
        intro x hx hxmem
        simp only [List.map_cons, List.map_nil, List.mem_cons,
          List.not_mem_nil, or_false] at hxmem
        exact hu (hxmem ▸ hx)
      · rw [hupd]
        have hne' : (l ++ [(⟨u, r⟩ : RatingEntry)]).isEmpty = false := by
          cases l <;> rfl
        simp [calculateAverageRating, hne']
    · have h100 : l.length = 100 := by omega
      obtain ⟨e0, t, rfl⟩ : ∃ e0 t, l = e0 :: t := by
        cases l with
        | nil => simp at h100
        | cons a b => exact ⟨a, b, rfl⟩
      simp only [List.length_cons] at h100
      have hupd : updateRatingDetails (e0 :: t) u r
          = (t ++ [⟨u, r⟩], true) := by
        have hyes : 100 < ((e0 :: t) ++ [(⟨u, r⟩ : RatingEntry)]).length := by
          simp only [List.cons_append, List.length_append, List.length_cons,
            List.length_nil]
          omega
        simp only [updateRatingDetails, heq]
        rw [if_pos hyes]
        rfl
      simp only [List.map_cons, List.nodup_cons] at hnodup
      have hu' : u ≠ e0.user ∧ u ∉ t.map RatingEntry.user := by
        rw [List.map_cons, List.mem_cons] at hu
        push_neg at hu
        exact hu
      refine ⟨fun h => absurd h hu, fun _ => ?_, ?_, ?_, ?_⟩
      · refine ⟨by rw [hupd], fun h => absurd h hl, fun _ => by simp [hupd]⟩
      · rw [hupd]
        simp only [List.length_append, List.length_cons, List.length_nil]
        omega
      · rw [hupd]
        rw [List.map_append]
        rw [List.nodup_append]
        refine ⟨hnodup.2, by simp, ?_⟩
        intro x hx hxmem
        simp only [List.map_cons, List.map_nil, List.mem_cons,
          List.not_mem_nil, or_false] at hxmem
        exact hu'.2 (hxmem ▸ hx)
      · rw [hupd]
        have hne' : (t ++ [(⟨u, r⟩ : RatingEntry)]).isEmpty = false := by
          cases t <;> rfl
        simp [calculateAverageRating, hne']

/-- C5 witness: a new user's rating is appended to a one-entry buffer. -/
theorem ratingBufferSpecWitness :
    (updateRatingDetails [⟨"bob".toList, 4⟩] ("alice".toList) 5).1
      = [⟨"bob".toList, 4⟩, ⟨"alice".toList, 5⟩] :=
  (((ratingBufferSpec [⟨"bob".toList, 4⟩] ("alice".toList) 5 (by decide)
      (by decide)).2.1 (by decide)).2.1 (by decide)).trans (by decide)

/-- C2 (code bug): an unsafe registration-time scan with both
`add_security_pending_tag` and `block_unsafe` configured, on a freshly
registered agent at `/a` with no tags.  The in-memory card is tagged (via
aliasing), but the persistence step calls `register_agent` on the existing
path, whose `ValueError` is swallowed by the blanket handler — so the
`block_unsafe` branch never runs: no toggle, no FAISS re-index with
`is_enabled = false`, and the helper reports the agent as remaining
enabled. -/
theorem agentScanRegistrationBug :
    (performAgentScanOnRegistration ⟨true, true, true, true⟩ false
        ("/a".toList) [] ⟨[("/a".toList, [])], [], ["/a".toList]⟩).1 = true ∧
    (performAgentScanOnRegistration ⟨true, true, true, true⟩ false
        ("/a".toList) [] ⟨[("/a".toList, [])], [], ["/a".toList]⟩).2.2 = [] ∧
    (performAgentScanOnRegistration ⟨true, true, true, true⟩ false
        ("/a".toList) [] ⟨[("/a".toList, [])], [], ["/a".toList]⟩).2.1
      = ⟨[("/a".toList, ["security-pending".toList])], [],
          ["/a".toList]⟩ := by
  decide

/-- The registered-check of the store operations agrees with membership in
the key list. -/
theorem any_key_iff_mem_paths (s : AgentStore) (p : Str) :
    (s.agents.any (fun q => q.1 == p) = true) ↔ p ∈ s.paths := by
  simp [AgentStore.paths, List.any_eq_true, beq_iff_eq]

/-- Deleting a key from a duplicate-free association list erases exactly
that key from the key list. -/
theorem paths_eraseP (agents : List (Str × List Str)) (p : Str) :
    (agents.eraseP (fun q => q.1 == p)).map Prod.fst
      = (agents.map Prod.fst).erase p := by
  induction agents with
  | nil => rfl
  | cons a t ih =>
    by_cases ha : a.1 = p
    · simp [List.eraseP_cons, List.erase_cons, ha]
    · simp [List.eraseP_cons, List.erase_cons, ha, ih]

/-- `register_agent` preserves the state invariant. -/
theorem storeInv_register (p : Str) (tg : List Str) (s s' : AgentStore)
    (hinv : StoreInv s) (h : registerAgent p tg s = .ok s') : StoreInv s' := by
  obtain ⟨hk, he, hd, hdisj, hcomp⟩ := hinv
  have hnew : ¬ (s.agents.any (fun q => q.1 == p) = true) := by
    intro hmem
    simp [registerAgent, hmem] at h
  have hs' : s' = ⟨s.agents ++ [(p, tg)], s.enabled, s.disabled ++ [p]⟩ := by
    simp [registerAgent, hnew] at h
    exact h.symm
  have hpnot : p ∉ s.paths := fun hmem =>
    hnew ((any_key_iff_mem_paths s p).mpr hmem)
  subst hs'
  have hpaths : (AgentStore.mk (s.agents ++ [(p, tg)]) s.enabled
      (s.disabled ++ [p])).paths = s.paths ++ [p] := by
    simp [AgentStore.paths]
  refine ⟨?_, he, ?_, ?_, ?_⟩
  · rw [hpaths]
    simp [List.nodup_append, hk, hpnot]
  · simp only []
    have hpd : p ∉ s.disabled := fun hmem =>
      hpnot ((hcomp p).mp (Or.inr hmem))
    simp [List.nodup_append, hd, hpd]
  · intro q hq
    simp only [List.mem_append, List.mem_singleton] at hq
    rcases hq.2 with hq2 | hq2
    · exact hdisj q ⟨hq.1, hq2⟩
    · subst hq2
      exact hpnot ((hcomp q).mp (Or.inl hq.1))
  · intro q
    rw [hpaths]
    simp only [List.mem_append, List.mem_singleton]
    constructor
    · rintro (hq | hq | hq)
      · exact Or.inl ((hcomp q).mp (Or.inl hq))
      · exact Or.inl ((hcomp q).mp (Or.inr hq))
      · exact Or.inr hq
    · rintro (hq | hq)
      · rcases (hcomp q).mpr hq with h1 | h1
        · exact Or.inl h1
        · exact Or.inr (Or.inl h1)
      · exact Or.inr (Or.inr hq)

/-- `enable_agent` preserves the state invariant. -/
theorem storeInv_enable (p : Str) (s s' : AgentStore)
    (hinv : StoreInv s) (h : enableAgent p s = .ok s') : StoreInv s' := by
  obtain ⟨hk, he, hd, hdisj, hcomp⟩ := hinv
  by_cases hreg : s.agents.any (fun q => q.1 == p) = true
  · by_cases hen : p ∈ s.enabled
    · have hs' : s' = s := by
        simp [enableAgent, hreg, hen] at h
        exact h.symm
      subst hs'
      exact ⟨hk, he, hd, hdisj, hcomp⟩
    · have hpmem : p ∈ s.paths := (any_key_iff_mem_paths s p).mp hreg
      by_cases hmemd : p ∈ s.disabled
      · have hs' : s' = ⟨s.agents, s.enabled ++ [p], s.disabled.erase p⟩ := by
          simp [enableAgent, hreg, hen, hmemd] at h
          exact h.symm
        subst hs'
        refine ⟨hk, ?_, hd.erase p, ?_, ?_⟩
        · simp [List.nodup_append, he, hen]
        · intro q hq
          simp only [List.mem_append, List.mem_singleton] at hq
          rcases hq.1 with hq1 | hq1
          · exact hdisj q ⟨hq1, List.mem_of_mem_erase hq.2⟩
          · subst hq1
            exact (hd.mem_erase_iff.mp hq.2).1 rfl
        · intro q
          simp only [List.mem_append, List.mem_singleton]
          constructor
          · rintro ((hq | hq) | hq)
            · exact (hcomp q).mp (Or.inl hq)
            · subst hq
              exact hpmem
            · exact (hcomp q).mp (Or.inr (List.mem_of_mem_erase hq))
          · intro hq
            by_cases hqp : q = p
            · exact Or.inl (Or.inr hqp)
            · rcases (hcomp q).mpr hq with h1 | h1
              · exact Or.inl (Or.inl h1)
              · exact Or.inr (hd.mem_erase_iff.mpr ⟨hqp, h1⟩)
      · have hs' : s' = ⟨s.agents, s.enabled ++ [p], s.disabled⟩ := by
          simp [enableAgent, hreg, hen, hmemd] at h
          exact h.symm
        subst hs'
        refine ⟨hk, ?_, hd, ?_, ?_⟩
        · simp [List.nodup_append, he, hen]
        · intro q hq
          simp only [List.mem_append, List.mem_singleton] at hq
          rcases hq.1 with hq1 | hq1
          · exact hdisj q ⟨hq1, hq.2⟩
          · subst hq1
            exact hmemd hq.2
        · intro q
          simp only [List.mem_append, List.mem_singleton]
          constructor
          · rintro ((hq | hq) | hq)
            · exact (hcomp q).mp (Or.inl hq)
            · subst hq
              exact hpmem
            · exact (hcomp q).mp (Or.inr hq)
          · intro hq
            rcases (hcomp q).mpr hq with h1 | h1
            · exact Or.inl (Or.inl h1)
            · exact Or.inr h1
  · simp [enableAgent, hreg] at h

/-- `disable_agent` preserves the state invariant. -/
theorem storeInv_disable (p : Str) (s s' : AgentStore)
    (hinv : StoreInv s) (h : disableAgent p s = .ok s') : StoreInv s' := by
  obtain ⟨hk, he, hd, hdisj, hcomp⟩ := hinv
  by_cases hreg : s.agents.any (fun q => q.1 == p) = true
  · by_cases hdis : p ∈ s.disabled
    · have hs' : s' = s := by
        simp [disableAgent, hreg, hdis] at h
        exact h.symm
      subst hs'
      exact ⟨hk, he, hd, hdisj, hcomp⟩
    · have hpmem : p ∈ s.paths := (any_key_iff_mem_paths s p).mp hreg
      by_cases hmeme : p ∈ s.enabled
      · have hs' : s' = ⟨s.agents, s.enabled.erase p, s.disabled ++ [p]⟩ := by
          simp [disableAgent, hreg, hdis, hmeme] at h
          exact h.symm
        subst hs'
        refine ⟨hk, he.erase p, ?_, ?_, ?_⟩
        · simp [List.nodup_append, hd, hdis]
        · intro q hq
          simp only [List.mem_append, List.mem_singleton] at hq
          rcases hq.2 with hq2 | hq2
          · exact hdisj q ⟨List.mem_of_mem_erase hq.1, hq2⟩
          · subst hq2
            exact (he.mem_erase_iff.mp hq.1).1 rfl
        · intro q
          simp only [List.mem_append, List.mem_singleton]
          constructor
          · rintro (hq | hq | hq)
            · exact (hcomp q).mp (Or.inl (List.mem_of_mem_erase hq))
            · exact (hcomp q).mp (Or.inr hq)
            · subst hq
              exact hpmem
          · intro hq
            by_cases hqp : q = p
            · exact Or.inr (Or.inr hqp)
            · rcases (hcomp q).mpr hq with h1 | h1
              · exact Or.inl (he.mem_erase_iff.mpr ⟨hqp, h1⟩)
              · exact Or.inr (Or.inl h1)
      · have hs' : s' = ⟨s.agents, s.enabled, s.disabled ++ [p]⟩ := by
          simp [disableAgent, hreg, hdis, hmeme] at h
          exact h.symm
        subst hs'
        refine ⟨hk, he, ?_, ?_, ?_⟩
        · simp [List.nodup_append, hd, hdis]
        · intro q hq
          simp only [List.mem_append, List.mem_singleton] at hq
          rcases hq.2 with hq2 | hq2
          · exact hdisj q ⟨hq.1, hq2⟩
          · subst hq2
            exact hmeme hq.1
        · intro q
          simp only [List.mem_append, List.mem_singleton]
          constructor
          · rintro (hq | hq | hq)
            · exact (hcomp q).mp (Or.inl hq)
            · exact (hcomp q).mp (Or.inr hq)
            · subst hq
              exact hpmem
          · intro hq
            rcases (hcomp q).mpr hq with h1 | h1
            · exact Or.inl h1
            · exact Or.inr (Or.inl h1)
  · simp [disableAgent, hreg] at h

/-- `delete_agent` preserves the state invariant. -/
theorem storeInv_delete (p : Str) (s s' : AgentStore)
    (hinv : StoreInv s) (h : deleteAgent p s = .ok s') : StoreInv s' := by
  obtain ⟨hk, he, hd, hdisj, hcomp⟩ := hinv
  by_cases hreg : s.agents.any (fun q => q.1 == p) = true
  · have hs' : s' = ⟨s.agents.eraseP (fun q => q.1 == p),
        if p ∈ s.enabled then s.enabled.erase p else s.enabled,
        if p ∈ s.disabled then s.disabled.erase p else s.disabled⟩ := by
      simp [deleteAgent, hreg] at h
      exact h.symm
    subst hs'
    have hpaths : (AgentStore.mk (s.agents.eraseP (fun q => q.1 == p))
        (if p ∈ s.enabled then s.enabled.erase p else s.enabled)
        (if p ∈ s.disabled then s.disabled.erase p else s.disabled)).paths
          = s.paths.erase p := by
      simp only [AgentStore.paths]
      exact paths_eraseP s.agents p
    have henab : ∀ q, q ∈ (if p ∈ s.enabled then s.enabled.erase p
        else s.enabled) ↔ (q ≠ p ∧ q ∈ s.enabled) := by
      intro q
      by_cases hp : p ∈ s.enabled
      · simp only [if_pos hp]
        exact he.mem_erase_iff
      · simp only [if_neg hp]
        constructor
        · intro hq
          refine ⟨?_, hq⟩
          rintro rfl
          exact hp hq
        · exact fun hq => hq.2
    have hdisab : ∀ q, q ∈ (if p ∈ s.disabled then s.disabled.erase p
        else s.disabled) ↔ (q ≠ p ∧ q ∈ s.disabled) := by
      intro q
      by_cases hp : p ∈ s.disabled
      · simp only [if_pos hp]
        exact hd.mem_erase_iff
      · simp only [if_neg hp]
        constructor
        · intro hq
          refine ⟨?_, hq⟩
          rintro rfl
          exact hp hq
        · exact fun hq => hq.2
    refine ⟨?_, ?_, ?_, ?_, ?_⟩
    · rw [hpaths]
      exact hk.erase p
    · simp only []
      split
      · exact he.erase p
      · exact he
    · simp only []
      split
      · exact hd.erase p
      · exact hd
    · intro q hq
      rw [henab q] at hq
      rw [hdisab q] at hq
      exact hdisj q ⟨hq.1.2, hq.2.2⟩
    · intro q
      rw [hpaths, henab q, hdisab q, hk.mem_erase_iff]
      constructor
      · rintro (⟨hqp, hq⟩ | ⟨hqp, hq⟩)
        · exact ⟨hqp, (hcomp q).mp (Or.inl hq)⟩
        · exact ⟨hqp, (hcomp q).mp (Or.inr hq)⟩
      · rintro ⟨hqp, hq⟩
        rcases (hcomp q).mpr hq with h1 | h1
        · exact Or.inl ⟨hqp, h1⟩
        · exact Or.inr ⟨hqp, h1⟩
  · simp [deleteAgent, hreg] at h

/-- Every store operation preserves the state invariant (a raised
`ValueError` leaves the state untouched). -/
theorem storeInv_applyOp (s : AgentStore) (op : StoreOp)
    (hinv : StoreInv s) : StoreInv (applyOp s op) := by
  cases op with
  | register p tg =>
    cases h : registerAgent p tg s with
    | ok s' =>
      simpa [applyOp, h] using storeInv_register p tg s s' hinv h
    | error e => simpa [applyOp, h] using hinv
  | enable p =>
    cases h : enableAgent p s with
    | ok s' => simpa [applyOp, h] using storeInv_enable p s s' hinv h
    | error e => simpa [applyOp, h] using hinv
  | disable p =>
    cases h : disableAgent p s with
    | ok s' => simpa [applyOp, h] using storeInv_disable p s s' hinv h
    | error e => simpa [applyOp, h] using hinv
  | delete p =>
    cases h : deleteAgent p s with
    | ok s' => simpa [applyOp, h] using storeInv_delete p s s' hinv h
    | error e => simpa [applyOp, h] using hinv

/-- The invariant holds in every state reachable from the empty store. -/
theorem storeInv_runOps (ops : List StoreOp) : StoreInv (runOps ops) := by
  suffices h : ∀ s, StoreInv s → StoreInv (ops.foldl applyOp s) by
    exact h emptyStore ⟨by simp [emptyStore, AgentStore.paths],
      by simp [emptyStore], by simp [emptyStore],
      fun p hp => by simp [emptyStore] at hp,
      fun p => by simp [emptyStore, AgentStore.paths]⟩
  induction ops with
  | nil => exact fun s hs => hs
  | cons op rest ih =>
    intro s hs
    exact ih (applyOp s op) (storeInv_applyOp s op hs)

/-- C3: in every agent-store state reachable from the empty state by any
sequence of register / enable / disable / delete operations, the enabled and
disabled lists are disjoint and their union (as sets) is exactly the set of
registered paths; moreover a registration succeeding from such a state
places the new path in the disabled list only, and a deletion removes the
path from both lists. -/
theorem storeStateInvariant (ops : List StoreOp) :
    (∀ p, ¬(p ∈ (runOps ops).enabled ∧ p ∈ (runOps ops).disabled)) ∧
    (∀ p, (p ∈ (runOps ops).enabled ∨ p ∈ (runOps ops).disabled)
        ↔ p ∈ (runOps ops).paths) ∧
    (∀ p tg s', registerAgent p tg (runOps ops) = .ok s' →
      p ∈ s'.disabled ∧ p ∉ s'.enabled) ∧
    (∀ p s', deleteAgent p (runOps ops) = .ok s' →
      p ∉ s'.enabled ∧ p ∉ s'.disabled) := by
  obtain ⟨hk, he, hd, hdisj, hcomp⟩ := storeInv_runOps ops
  refine ⟨hdisj, hcomp, ?_, ?_⟩
  · intro p tg s' h
    have hnew : ¬ ((runOps ops).agents.any (fun q => q.1 == p) = true) := by
      intro hmem
      simp [registerAgent, hmem] at h
    have hs' : s' = ⟨(runOps ops).agents ++ [(p, tg)], (runOps ops).enabled,
        (runOps ops).disabled ++ [p]⟩ := by
      simp [registerAgent, hnew] at h
      exact h.symm
    have hpnot : p ∉ (runOps ops).paths := fun hmem =>
      hnew ((any_key_iff_mem_paths (runOps ops) p).mpr hmem)
    subst hs'
    constructor
    · simp
    · intro hp
      simp only [List.mem_append] at hp
      exact hpnot ((hcomp p).mp (Or.inl hp))
  · intro p s' h
    by_cases hreg : (runOps ops).agents.any (fun q => q.1 == p) = true
    · have hs' : s' = ⟨(runOps ops).agents.eraseP (fun q => q.1 == p),
          if p ∈ (runOps ops).enabled then (runOps ops).enabled.erase p
          else (runOps ops).enabled,
          if p ∈ (runOps ops).disabled then (runOps ops).disabled.erase p
          else (runOps ops).disabled⟩ := by
        simp [deleteAgent, hreg] at h
        exact h.symm
      subst hs'
      constructor
      · show p ∉ (if p ∈ (runOps ops).enabled then (runOps ops).enabled.erase p
          else (runOps ops).enabled)
        by_cases hp : p ∈ (runOps ops).enabled
        · rw [if_pos hp]
          exact fun hmem => (he.mem_erase_iff.mp hmem).1 rfl
        · rw [if_neg hp]
          exact hp
      · show p ∉ (if p ∈ (runOps ops).disabled
            then (runOps ops).disabled.erase p else (runOps ops).disabled)
        by_cases hp : p ∈ (runOps ops).disabled
        · rw [if_pos hp]
          exact fun hmem => (hd.mem_erase_iff.mp hmem).1 rfl
        · rw [if_neg hp]
          exact hp
    · simp [deleteAgent, hreg] at h

/-- C3 witness: after registering `/a` and `/b` and enabling `/a`, a fresh
registration of `/c` lands in the disabled list and not in the enabled
list. -/
theorem storeStateInvariantWitness :
    "/c".toList ∈ (AgentStore.mk
        [("/a".toList, []), ("/b".toList, []), ("/c".toList, [])]
        ["/a".toList] ["/b".toList, "/c".toList]).disabled ∧
    "/c".toList ∉ (AgentStore.mk
        [("/a".toList, []), ("/b".toList, []), ("/c".toList, [])]
        ["/a".toList] ["/b".toList, "/c".toList]).enabled :=
  (storeStateInvariant
      [.register ("/a".toList) [], .register ("/b".toList) [],
        .enable ("/a".toList)]).2.2.1
    ("/c".toList) [] _ rfl

/-- C8: toggling to an already-held state is a successful no-op, and
`toggle` is idempotent on every store: applying `toggle(path, b)` twice
yields the same state as applying it once, for both `b = true` and
`b = false`. -/
theorem toggleIdempotent (s : AgentStore) (p : Str) :
    (p ∈ s.paths → p ∈ s.enabled → toggleAgent p true s = (true, s)) ∧
    (p ∈ s.paths → p ∈ s.disabled → toggleAgent p false s = (true, s)) ∧
    (toggleAgent p true (toggleAgent p true s).2).2
      = (toggleAgent p true s).2 ∧
    (toggleAgent p false (toggleAgent p false s).2).2
      = (toggleAgent p false s).2 := by
  refine ⟨?_, ?_, ?_, ?_⟩
  · intro hreg hen
    have hany := (any_key_iff_mem_paths s p).mpr hreg
    simp [toggleAgent, enableAgent, hany, hen]
  · intro hreg hdis
    have hany := (any_key_iff_mem_paths s p).mpr hreg
    simp [toggleAgent, disableAgent, hany, hdis]
  · by_cases hany : s.agents.any (fun q => q.1 == p) = true
    · by_cases hen : p ∈ s.enabled
      · simp [toggleAgent, enableAgent, hany, hen]
      · have h1 : (toggleAgent p true s).2
            = ⟨s.agents, s.enabled ++ [p],
              if p ∈ s.disabled then s.disabled.erase p else s.disabled⟩ := by
          simp [toggleAgent, enableAgent, hany, hen]
        rw [h1]
        have hen2 : p ∈ s.enabled ++ [p] := by simp
        simp [toggleAgent, enableAgent, hany, hen2]
    · have h1 : (toggleAgent p true s).2 = s := by
        simp [toggleAgent, enableAgent, hany]
      rw [h1]
      exact h1
  · by_cases hany : s.agents.any (fun q => q.1 == p) = true
    · by_cases hdis : p ∈ s.disabled
      · simp [toggleAgent, disableAgent, hany, hdis]
      · have h1 : (toggleAgent p false s).2
            = ⟨s.agents,
              if p ∈ s.enabled then s.enabled.erase p else s.enabled,
              s.disabled ++ [p]⟩ := by
          simp [toggleAgent, disableAgent, hany, hdis]
        rw [h1]
        have hdis2 : p ∈ s.disabled ++ [p] := by simp
        simp [toggleAgent, disableAgent, hany, hdis2]
    · have h1 : (toggleAgent p false s).2 = s := by
        simp [toggleAgent, disableAgent, hany]
      rw [h1]
      exact h1

/-- C8 witness: enabling an already-enabled registered path returns success
and leaves the store unchanged. -/
theorem toggleIdempotentWitness :
    toggleAgent ("/a".toList) true
        (AgentStore.mk [("/a".toList, [])] ["/a".toList] [])
      = (true, AgentStore.mk [("/a".toList, [])] ["/a".toList] []) :=
  (toggleIdempotent (AgentStore.mk [("/a".toList, [])] ["/a".toList] [])
      ("/a".toList)).1 (by decide) (by decide)

/-- Every boost query token is longer than 2 characters. -/
theorem mem_boostQueryTokens_length (q t : Str)
    (h : t ∈ boostQueryTokens q) : 2 < t.length := by
  unfold boostQueryTokens filteredQueryTokens at h
  have h2 := List.mem_filter.mp (List.mem_dedup.mp h)
  have h3 := (Bool.and_eq_true _ _).mp h2.2
  exact of_decide_eq_true h3.1

/-- No boost query token occurs in the empty description. -/
theorem descMatchCount_nil (q : Str) :
    descMatchCount (boostQueryTokens q) [] = 0 := by
  unfold descMatchCount
  rw [List.length_eq_zero]
  rw [List.filter_eq_nil_iff]
  intro t ht
  have hlen := mem_boostQueryTokens_length q t ht
  have : t ≠ [] := by
    intro hnil
    rw [hnil] at hlen
    simp at hlen
  simp [hasSub, List.isEmpty_iff, this]

/-- Arithmetic bridge between the source's accumulate-and-guard boost
computation and the closed guarded formula. -/
theorem boost_accum_eq (c : Bool) (tb gb : ℚ) (htb : 0 ≤ tb) (hgb : 0 ≤ gb)
    (demp : Bool) (db : ℚ) (hdb0 : demp = true → db = 0) :
    (min 2
      (if demp = true then
        (if 0 < gb then
          (if 0 < tb then (if c = true then (1:ℚ) + 1/2 else 1) + tb
            else (if c = true then (1:ℚ) + 1/2 else 1)) + gb
          else (if 0 < tb then (if c = true then (1:ℚ) + 1/2 else 1) + tb
            else (if c = true then (1:ℚ) + 1/2 else 1)))
      else
        (if 1/100 < db then
          (if 0 < gb then
            (if 0 < tb then (if c = true then (1:ℚ) + 1/2 else 1) + tb
              else (if c = true then (1:ℚ) + 1/2 else 1)) + gb
            else (if 0 < tb then (if c = true then (1:ℚ) + 1/2 else 1) + tb
              else (if c = true then (1:ℚ) + 1/2 else 1))) + db
          else
          (if 0 < gb then
            (if 0 < tb then (if c = true then (1:ℚ) + 1/2 else 1) + tb
              else (if c = true then (1:ℚ) + 1/2 else 1)) + gb
            else (if 0 < tb then (if c = true then (1:ℚ) + 1/2 else 1) + tb
              else (if c = true then (1:ℚ) + 1/2 else 1))))))
    = min 2 (1 + (if c = true then (1:ℚ)/2 else 0) + tb + gb
        + (if 1/100 < db then db else 0)) := by
  have htb' : (if 0 < tb then (if c = true then (1:ℚ) + 1/2 else 1) + tb
      else (if c = true then (1:ℚ) + 1/2 else 1))
      = (if c = true then (1:ℚ) + 1/2 else 1) + tb := by
    rcases eq_or_lt_of_le htb with h | h
    · rw [if_neg (by rw [← h]; exact lt_irrefl 0), ← h, add_zero]
    · rw [if_pos h]
  have hgb' : ∀ b : ℚ, (if 0 < gb then b + gb else b) = b + gb := by
    intro b
    rcases eq_or_lt_of_le hgb with h | h
    · rw [if_neg (by rw [← h]; exact lt_irrefl 0), ← h, add_zero]
    · rw [if_pos h]
  have hc' : (if c = true then (1:ℚ) + 1/2 else 1)
      = 1 + (if c = true then (1:ℚ)/2 else 0) := by
    cases c <;> norm_num
  cases demp with
  | true =>
    rw [if_pos rfl, htb', hgb', hc', hdb0 rfl]
    norm_num
  | false =>
    rw [if_neg (by simp), htb', hgb', hc']
    by_cases hd : 1/100 < db
    · rw [if_pos hd, if_pos hd]
    · rw [if_neg hd, if_neg hd, add_zero]

/-- The source's keyword boost equals the claim's formula with the
description-density guard added. -/
theorem keywordBoost_eq_guarded (q : Str) (si : ServerInfo) :
    calculateKeywordBoost q si = keywordBoostGuarded q si := by
  by_cases hq : (boostQueryTokens q).isEmpty = true
  · simp [calculateKeywordBoost, keywordBoostGuarded, hq]
  · have hdb0 : ((lowerStr si.description).isEmpty = true) →
        ((descMatchCount (boostQueryTokens q) (lowerStr si.description) : ℚ)
          / ((boostQueryTokens q).length : ℚ)) * (1/5) = 0 := by
      intro hze
      rw [List.isEmpty_iff] at hze
      rw [hze, descMatchCount_nil]
      norm_num
    simp only [calculateKeywordBoost, keywordBoostGuarded, if_neg hq]
    rw [mul_comm ((1:ℚ)/5)
      (((descMatchCount (boostQueryTokens q) (lowerStr si.description) : ℚ))
        / ((boostQueryTokens q).length : ℚ))]
    exact boost_accum_eq _ _ _ (le_min (by norm_num) (by positivity))
      (le_min (by norm_num) (by positivity)) _ _ hdb0

/-- C6 (amended): the keyword boost is the claim's formula — tokenize,
lowercase, drop short tokens and stopwords, boost 1.0 when nothing remains,
otherwise `min(2, 1 + 0.5·[name] + min(0.6, 0.3·tools) + min(0.4, 0.2·tags)
+ density)` — except that the description-density term is included only when
it exceeds 0.01; and the hit's final relevance score is
`min(1, base_similarity × boost)`. -/
theorem keywordBoostFormula (q : Str) (si : ServerInfo) :
    calculateKeywordBoost q si = keywordBoostGuarded q si ∧
    (∀ base : ℚ, serverRelevance q base si
        = min 1 (base * keywordBoostGuarded q si)) := by
  refine ⟨keywordBoost_eq_guarded q si, ?_⟩
  intro base
  rw [serverRelevance, keywordBoost_eq_guarded q si]

/-- C6 counterexample: on the 21-token `guardQuery` against `guardServer`
(one token in the description, nothing else matching), the source's boost is
1.0 — the density contribution `0.2·(1/21) ≈ 0.0095` is dropped by the
`> 0.01` guard — while the claim's formula yields `1 + 1/105`. -/
theorem keywordBoostCounterexample :
    calculateKeywordBoost guardQuery guardServer
      ≠ keywordBoostClaimed guardQuery guardServer := by
  have hlen : (boostQueryTokens guardQuery).length = 21 := by decide
  have hiE : (boostQueryTokens guardQuery).isEmpty = false := by decide
  have hname : anyTokenSub (boostQueryTokens guardQuery) (lowerStr ([] : Str))
      = false := by decide
  have htool : toolNameMatches (boostQueryTokens guardQuery)
      ([] : List ToolRec) = 0 := rfl
  have htag : tagMatchCount (boostQueryTokens guardQuery) ([] : List Str)
      = 0 := rfl
  have hlow : lowerStr ("aaa".toList) = "aaa".toList := by decide
  have hdesc : descMatchCount (boostQueryTokens guardQuery) ("aaa".toList)
      = 1 := by decide
  have hdne : ("aaa".toList : Str).isEmpty = false := rfl
  have hcode : calculateKeywordBoost guardQuery guardServer = 1 := by
    simp only [calculateKeywordBoost, guardServer, hiE, hname, hlow, hdesc,
      hlen, htool, htag, hdne]
    norm_num [min_def]
  have hclaim : keywordBoostClaimed guardQuery guardServer = 106 / 105 := by
    simp only [keywordBoostClaimed, guardServer, hiE, hname, hlow, hdesc,
      hlen, htool, htag]
    norm_num [min_def]
  rw [hcode, hclaim]
  norm_num

/-- Branch bridge for the per-tool rule: the source's
`(weighted = 0 ∧ server-name match) / (weighted = 0) / else` chain equals
the claim's `weighted > 0 / server-name match / skip` order, for any
non-negative weight. -/
theorem toolBranch_eq (sn : Bool) (w : ℚ) (hw : 0 ≤ w)
    (a b : Option ToolMatch) :
    (if w = 0 ∧ sn = true then a else if w = 0 then none else b)
      = (if 0 < w then b else if sn = true then a else none) := by
  by_cases h0 : w = 0
  · subst h0
    cases sn with
    | true => simp
    | false => simp
  · have hpos : 0 < w := lt_of_le_of_ne hw (Ne.symm h0)
    rw [if_neg (by intro hc; exact h0 hc.1), if_neg h0, if_pos hpos]

/-- The source's per-tool entry equals the amended claim's rule. -/
theorem toolMatchEntry_eq_amended (snMatch : Bool) (toks : List Str)
    (t : ToolRec) :
    toolMatchEntry snMatch toks t = toolMatchEntryAmended snMatch toks t := by
  unfold toolMatchEntry toolMatchEntryAmended
  by_cases hempty : (stripWS (lowerStr (t.name ++ [' '] ++ toolDescOf t
      ++ [' '] ++ toolArgsOf t))).isEmpty = true
  · rw [if_pos hempty, if_pos hempty]
  · rw [if_neg hempty, if_neg hempty]
    exact toolBranch_eq snMatch _ (by positivity) _ _

/-- C7 (amended): tool extraction follows the claim's per-tool rule with two
source-imposed changes — the keyword score is capped at 1
(`min(1, weighted/max_possible)`) and tools whose name, description and args
are all blank are skipped even on a server-name match; extracted tools are
sorted by score descending, the top 5 are projected per server, each with
`relevance = min(1, (final_server_score + raw_score)/2)`. -/
theorem toolExtractionFormula (q : Str) (si : ServerInfo) :
    extractMatchingTools q si = extractToolsAmended q si ∧
    (∀ (path : Str) (rel : ℚ),
      projectToolResults q si path rel
        = projectToolResultsAmended q si path rel) := by
  have hext : extractMatchingTools q si = extractToolsAmended q si := by
    unfold extractMatchingTools extractToolsAmended
    have hfm : toolMatchEntry (serverNameMatchB (filteredQueryTokens q)
          si.server_name) (filteredQueryTokens q)
        = toolMatchEntryAmended (serverNameMatchB (filteredQueryTokens q)
          si.server_name) (filteredQueryTokens q) :=
      funext (toolMatchEntry_eq_amended _ _)
    simp only [hfm]
  refine ⟨hext, ?_⟩
  intro path rel
  unfold projectToolResults projectToolResultsAmended
  rw [hext]

/-- C7 counterexample: for the query `abc` against `capServer`, the single
tool has `weighted = 3` and `max_possible = 2`; the claim's rule yields
`raw_score = 3/2` while the source caps it at 1, so the extraction lists
differ. -/
theorem toolScoreCounterexample :
    extractMatchingTools ("abc".toList) capServer
      ≠ extractToolsClaimed ("abc".toList) capServer := by
  have htk : filteredQueryTokens ("abc".toList) = ["abc".toList] := by decide
  have hsn : serverNameMatchB ["abc".toList] ("srv".toList) = false := by
    decide
  have hname0 : capTool.name = "abc".toList := rfl
  have hdesc0 : toolDescOf capTool = "abc".toList := rfl
  have hargs0 : toolArgsOf capTool = ([] : Str) := rfl
  have hsw : (stripWS (lowerStr ("abc".toList ++ [' '] ++ "abc".toList
      ++ [' '] ++ ([] : Str)))).isEmpty = false := by decide
  have hnm : ((["abc".toList] : List Str).filter
      (fun tok => hasSub (lowerStr ("abc".toList)) tok)).length = 1 := by
    decide
  have hdm : ((["abc".toList] : List Str).filter
      (fun tok => hasSub (lowerStr ("abc".toList)) tok
        || hasSub (lowerStr ([] : Str)) tok)).length = 1 := by decide
  have hctx : (pyOrS ("abc".toList) (pyOrS ([] : Str) [])).take 180
      = "abc".toList := by decide
  have hentry : toolMatchEntry false ["abc".toList] capTool
      = some ⟨"abc".toList, "abc".toList, "abc".toList, 1⟩ := by
    simp only [toolMatchEntry, hname0, hdesc0, hargs0, hsw, hnm, hdm, hctx]
    norm_num [min_def]
  have hentryC : toolMatchEntryClaimed false ["abc".toList] capTool
      = some ⟨"abc".toList, "abc".toList, "abc".toList, 3 / 2⟩ := by
    simp only [toolMatchEntryClaimed, hname0, hdesc0, hargs0, hnm, hdm, hctx]
    norm_num
  have hext : extractMatchingTools ("abc".toList) capServer
      = [⟨"abc".toList, "abc".toList, "abc".toList, 1⟩] := by
    simp only [extractMatchingTools, capServer, htk, hsn,
      List.isEmpty_cons, Bool.false_eq_true, if_false, List.filterMap_cons,
      List.filterMap_nil, hentry, sortToolMatches, List.mergeSort_singleton]
  have hextC : extractToolsClaimed ("abc".toList) capServer
      = [⟨"abc".toList, "abc".toList, "abc".toList, 3 / 2⟩] := by
    simp only [extractToolsClaimed, capServer, htk, hsn,
      List.isEmpty_cons, Bool.false_eq_true, if_false, List.filterMap_cons,
      List.filterMap_nil, hentryC, sortToolMatches, List.mergeSort_singleton]
  rw [hext, hextC]
  simp only [ne_eq, List.cons.injEq, ToolMatch.mk.injEq]
  intro h
  have := h.1.2.2.2
  norm_num at this
